import Mathlib

/-!
# syslog-ng exporter: STATS line parsing, metric dispatch and command sessions

A shallow embedding of `syslog_ng_api.go`.

* A Go `string` is a sequence of bytes.  A byte is modelled as a natural number
  (below 256 for every real input); no definition below depends on that bound.
* `strconv.ParseFloat` is taken as a parameter `ParseFloat : GoString → Option F`
  over an arbitrary carrier `F` of 64-bit floating point values.
* The functions of the Go standard library that the program calls
  (`strings.TrimSpace`, `strings.SplitN`, `strings.Contains`, `bufio.Reader.ReadString`,
  `fmt.Sprintf`, `utf8.ValidString`) are modelled after their documented behaviour.
* A run-time panic is an explicit outcome: an index or slice expression out of range, and,
  apart from it, a panic of `prometheus.MustNewConstMetric`, which the library raises when a
  label value is not valid UTF-8.
-/

namespace SyslogNg

/-- A Go string: its bytes, in order. -/
abbrev GoString := List Nat

/-- The bytes of an ASCII string literal (for ASCII text the code point of a character is
its single UTF-8 byte). -/
def ascii (s : String) : GoString := s.data.map Char.toNat

/-! ## `unicode/utf8` and `unicode.IsSpace` -/

/-- Constant `utf8.RuneError` (U+FFFD). -/
def RuneError : Nat := 0xFFFD

/-- Constant `utf8.RuneSelf`: bytes below it are single-byte runes. -/
def RuneSelf : Nat := 0x80

/-- Continuation byte test (`locb ≤ b ≤ hicb`). -/
def isCont (b : Nat) : Bool := decide (0x80 ≤ b) && decide (b ≤ 0xBF)

/-- Function `utf8.DecodeRuneInString`: the first rune of `s` and its width in bytes.
Invalid or truncated encodings give `(RuneError, 1)`, the empty string `(RuneError, 0)`. -/
def DecodeRuneInString : GoString → Nat × Nat
  | [] => (RuneError, 0)
  | s0 :: t =>
    if s0 < 0x80 then (s0, 1)
    else if s0 < 0xC2 then (RuneError, 1)
    else if s0 ≤ 0xDF then
      match t with
      | s1 :: _ =>
        if isCont s1 then ((s0 % 32) * 64 + s1 % 64, 2) else (RuneError, 1)
      | _ => (RuneError, 1)
    else if s0 ≤ 0xEF then
      match t with
      | s1 :: s2 :: _ =>
        let lo := if s0 = 0xE0 then 0xA0 else 0x80
        let hi := if s0 = 0xED then 0x9F else 0xBF
        if decide (lo ≤ s1) && decide (s1 ≤ hi) && isCont s2 then
          ((s0 % 16) * 4096 + (s1 % 64) * 64 + s2 % 64, 3)
        else (RuneError, 1)
      | _ => (RuneError, 1)
    else if s0 ≤ 0xF4 then
      match t with
      | s1 :: s2 :: s3 :: _ =>
        let lo := if s0 = 0xF0 then 0x90 else 0x80
        let hi := if s0 = 0xF4 then 0x8F else 0xBF
        if decide (lo ≤ s1) && decide (s1 ≤ hi) && isCont s2 && isCont s3 then
          ((s0 % 8) * 262144 + (s1 % 64) * 4096 + (s2 % 64) * 64 + s3 % 64, 4)
        else (RuneError, 1)
      | _ => (RuneError, 1)
    else (RuneError, 1)

/-- Function `utf8.RuneStart`: the byte is not a continuation byte. -/
def RuneStart (b : Nat) : Bool := !isCont b

/-- Backward scan of `utf8.DecodeLastRuneInString`: starting at index `start` and going down to
`lim`, the first index holding a rune start byte; `lim - 1` (possibly below zero) when the scan
runs out.  `k` counts the indices still to visit. -/
def scanStart (s : GoString) (lim : Int) : Nat → Int → Int
  | 0, start => start
  | k + 1, start =>
    if start < lim then start
    else if RuneStart (s.getD start.toNat 0) then start
    else scanStart s lim k (start - 1)

/-- Function `utf8.DecodeLastRuneInString`: the last rune of `s` and its width. -/
def DecodeLastRuneInString (s : GoString) : Nat × Nat :=
  let n := s.length
  if n = 0 then (RuneError, 0)
  else
    let r := s.getD (n - 1) 0
    if r < RuneSelf then (r, 1)
    else
      let lim : Int := if (n : Int) - 4 < 0 then 0 else (n : Int) - 4
      let start0 := scanStart s lim 4 ((n : Int) - 2)
      let start := if start0 < 0 then 0 else start0.toNat
      let (r, size) := DecodeRuneInString (s.drop start)
      if start + size ≠ n then (RuneError, 1) else (r, size)

/-- Loop of `utf8.ValidString` on what is left of the string: an ASCII byte is skipped, any other
byte must start a well-formed encoding (one that `DecodeRuneInString` decodes with a width above
one), which is skipped whole.  The first argument bounds the number of runes visited. -/
def validFrom : Nat → GoString → Bool
  | 0, s => s.isEmpty
  | fuel + 1, s =>
    match s with
    | [] => true
    | s0 :: t =>
      if s0 < RuneSelf then validFrom fuel t
      else if (DecodeRuneInString (s0 :: t)).2 = 1 then false
      else validFrom fuel ((s0 :: t).drop (DecodeRuneInString (s0 :: t)).2)

/-- Function `utf8.ValidString`: the string is made of well-formed UTF-8 encodings only. -/
def ValidString (s : GoString) : Bool := validFrom s.length s

/-- Function `unicode.IsSpace`: the Unicode White_Space property. -/
def IsSpace (r : Nat) : Bool :=
  decide (0x09 ≤ r ∧ r ≤ 0x0D) || decide (r = 0x20) || decide (r = 0x85) ||
  decide (r = 0xA0) || decide (r = 0x1680) || decide (0x2000 ≤ r ∧ r ≤ 0x200A) ||
  decide (r = 0x2028) || decide (r = 0x2029) || decide (r = 0x202F) || decide (r = 0x205F) ||
  decide (r = 0x3000)

/-- Table `asciiSpace` of package `strings`. -/
def asciiSpace (c : Nat) : Bool :=
  decide (c = 9) || decide (c = 10) || decide (c = 11) || decide (c = 12) || decide (c = 13) ||
  decide (c = 32)

/-! ## Package `strings` -/

/-- Helper `indexFunc(s, f, false)` of package `strings` (a `for i, r := range s` loop): the byte
index of the first rune that does not satisfy `f`; `none` stands for `-1`.  The first argument
bounds the number of runes visited; `s.length` always suffices. -/
def indexFunc (f : Nat → Bool) : Nat → GoString → Option Nat
  | 0, _ => none
  | fuel + 1, s =>
    match s with
    | [] => none
    | _ :: _ =>
      let (r, size) := DecodeRuneInString s
      if f r = false then some 0
      else (indexFunc f fuel (s.drop size)).map (fun i => i + size)

/-- Function `strings.TrimLeftFunc`. -/
def TrimLeftFunc (s : GoString) (f : Nat → Bool) : GoString :=
  match indexFunc f s.length s with
  | none => []
  | some i => s.drop i

/-- Helper `lastIndexFunc(s, f, false)` of package `strings`: the byte index of the last rune
that does not satisfy `f`, scanning down from index `i`; `none` stands for `-1`. -/
def lastIndexFunc (f : Nat → Bool) (s : GoString) : Nat → Nat → Option Nat
  | 0, _ => none
  | fuel + 1, i =>
    if 0 < i then
      let (r, size) := DecodeLastRuneInString (s.take i)
      if f r = false then some (i - size)
      else lastIndexFunc f s fuel (i - size)
    else none

/-- Function `strings.TrimRightFunc`. -/
def TrimRightFunc (s : GoString) (f : Nat → Bool) : GoString :=
  match lastIndexFunc f s s.length s.length with
  | none => []
  | some i =>
    if RuneSelf ≤ s.getD i 0 then s.take (i + (DecodeRuneInString (s.drop i)).2)
    else s.take (i + 1)

/-- Function `strings.TrimFunc`. -/
def TrimFunc (s : GoString) (f : Nat → Bool) : GoString :=
  TrimRightFunc (TrimLeftFunc s f) f

/-- Second loop of `strings.TrimSpace`, walking `stop` down from the end; the argument is the
remaining string `s[start:stop]` reversed. -/
def trimStop : GoString → GoString
  | [] => []
  | c :: t =>
    if RuneSelf ≤ c then TrimRightFunc (c :: t).reverse IsSpace
    else if asciiSpace c then trimStop t
    else (c :: t).reverse

/-- First loop of `strings.TrimSpace`, walking `start` up from the beginning; the argument is
`s[start:]`. -/
def trimStart : GoString → GoString
  | [] => trimStop []
  | c :: t =>
    if RuneSelf ≤ c then TrimFunc (c :: t) IsSpace
    else if asciiSpace c then trimStart t
    else trimStop (c :: t).reverse

/-- Function `strings.TrimSpace`: `s` without leading and trailing Unicode white space. -/
def TrimSpace (s : GoString) : GoString := trimStart s

/-- Function `strings.IndexByte`; `none` stands for `-1`. -/
def IndexByte : GoString → Nat → Option Nat
  | [], _ => none
  | b :: t, c => if b = c then some 0 else (IndexByte t c).map (fun i => i + 1)

/-- Loop of `genSplit` for a one-byte separator: at most `n` cuts, then the remainder. -/
def genSplit (sep : Nat) : Nat → GoString → List GoString
  | 0, s => [s]
  | n + 1, s =>
    match IndexByte s sep with
    | none => [s]
    | some m => s.take m :: genSplit sep n (s.drop (m + 1))

/-- Function `strings.SplitN` for a one-byte separator `sep` (both call sites pass one:
`";"` and `" "`) and a count `n ≥ 0`. -/
def SplitN (s : GoString) (sep : Nat) (n : Nat) : List GoString :=
  if n = 0 then []
  else genSplit sep ((if s.length + 1 < n then s.length + 1 else n) - 1) s

/-- Function `strings.Index`; `none` stands for `-1`. -/
def Index : GoString → GoString → Option Nat
  | [], substr => if substr = [] then some 0 else none
  | c :: t, substr =>
    if substr.isPrefixOf (c :: t) then some 0 else (Index t substr).map (fun i => i + 1)

/-- Function `strings.Contains`. -/
def Contains (s substr : GoString) : Bool := (Index s substr).isSome

/-! ## `bufio.Reader.ReadString` -/

/-- Method `ReadString(delim)` on a reader whose remaining input is the given bytes, after which
every read fails: the data up to and including the first `delim` with no error, or all the
remaining data with an error.  Result: the data, whether `err != nil`, the input left. -/
def ReadString (delim : Nat) : GoString → GoString × Bool × GoString
  | [] => ([], true, [])
  | b :: t =>
    if b = delim then ([b], false, t)
    else
      let r := ReadString delim t
      (b :: r.1, r.2.1, r.2.2)

/-! ## `parseStatLine` -/

/-- Go struct `Stat`. -/
structure Stat (F : Type) where
  objectType : GoString
  id : GoString
  instance_ : GoString
  state : GoString
  metric : GoString
  value : F
  deriving DecidableEq, Repr

/-- The three errors `parseStatLine` returns: `"insufficient parts: %d < 6"` with the number of
parts, `"invalid name: %s"` with the first part, and the error of `strconv.ParseFloat` on the
sixth part. -/
inductive ParseError where
  | insufficientParts (n : Nat)
  | invalidName (name : GoString)
  | parseFloat (input : GoString)
  deriving DecidableEq, Repr

deriving instance DecidableEq for Except

/-- Go function `parseStatLine`.  The index expressions `part[i]` are all behind the length test
`len(part) < 6`. -/
def parseStatLine {F : Type} (ParseFloat : GoString → Option F) (line : GoString) :
    Except ParseError (Stat F) :=
  let part := SplitN (TrimSpace line) 59 6
  if part.length < 6 then .error (.insufficientParts part.length)
  else if (part.getD 0 []).length < 4 then .error (.invalidName (part.getD 0 []))
  else
    match ParseFloat (part.getD 5 []) with
    | none => .error (.parseFloat (part.getD 5 []))
    | some val =>
      .ok ⟨part.getD 0 [], part.getD 1 [], part.getD 2 [], part.getD 3 [], part.getD 4 [], val⟩

/-- A stand-in for `strconv.ParseFloat` on unsigned decimal integers, used to run examples. -/
def parseDigits (s : GoString) : Option Nat :=
  if s ≠ [] ∧ s.all (fun b => decide (48 ≤ b) && decide (b ≤ 57)) then
    some (s.foldl (fun acc b => acc * 10 + (b - 48)) 0)
  else none

/-! ## `Exporter.collect` -/

/-- The metric descriptors held by the Go struct `Exporter`. -/
inductive Desc where
  | srcConnections
  | srcProcessed
  | dstProcessed
  | dstDropped
  | dstStored
  | dstWritten
  | dstMemory
  | up
  deriving DecidableEq, Repr

/-- Type `prometheus.ValueType`, as far as it is used. -/
inductive ValueType where
  | CounterValue
  | GaugeValue
  deriving DecidableEq, Repr

/-- The arguments of a call `prometheus.MustNewConstMetric(desc, valueType, value,
labelValues...)`, and the constant metric the call returns when it succeeds. -/
structure Metric (F : Type) where
  desc : Desc
  valueType : ValueType
  value : F
  labelValues : List GoString
  deriving DecidableEq, Repr

/-- Function `prometheus.MustNewConstMetric` on the given arguments: the metric, or `none` for the
panic the library raises when a label value is not valid UTF-8.  (It also panics when the number
of label values differs from the descriptor's number of labels; every descriptor of `Exporter` is
declared with as many labels as the calls pass: three, none for `up`.) -/
def MustNewConstMetric {F : Type} (m : Metric F) : Option (Metric F) :=
  if m.labelValues.all ValidString then some m else none

/-- Slice expression `s[lo:hi]` on a string; `none` is the run-time panic for bounds out of
range. -/
def slice (s : GoString) (lo hi : Nat) : Option GoString :=
  if lo ≤ hi ∧ hi ≤ s.length then some ((s.take hi).drop lo) else none

/-- The two nested `switch` statements of `collect`, given the parsed record and the value `p` of
`stat.objectType[0:4]`: the calls of `prometheus.MustNewConstMetric` they make (at most one),
each as its arguments. -/
def dispatch {F : Type} (stat : Stat F) (p : GoString) : List (Metric F) :=
  if p = ascii "src." ∨ p = ascii "sour" then
    if stat.metric = ascii "processed" then
      [⟨.srcProcessed, .CounterValue, stat.value, [stat.objectType, stat.id, stat.instance_]⟩]
    else if stat.metric = ascii "connections" then
      [⟨.srcConnections, .CounterValue, stat.value, [stat.objectType, stat.id, stat.instance_]⟩]
    else []
  else if p = ascii "dst." ∨ p = ascii "dest" then
    if stat.metric = ascii "dropped" then
      [⟨.dstDropped, .CounterValue, stat.value, [stat.objectType, stat.id, stat.instance_]⟩]
    else if stat.metric = ascii "processed" then
      [⟨.dstProcessed, .CounterValue, stat.value, [stat.objectType, stat.id, stat.instance_]⟩]
    else if stat.metric = ascii "written" then
      [⟨.dstWritten, .CounterValue, stat.value, [stat.objectType, stat.id, stat.instance_]⟩]
    else if stat.metric = ascii "stored" ∨ stat.metric = ascii "queued" then
      [⟨.dstStored, .GaugeValue, stat.value, [stat.objectType, stat.id, stat.instance_]⟩]
    else if stat.metric = ascii "memory_usage" then
      [⟨.dstMemory, .GaugeValue, stat.value, [stat.objectType, stat.id, stat.instance_]⟩]
    else []
  else []

/-- The body of the `for` loop of `collect` after the end-of-output test, for one line, up to its
calls of `prometheus.MustNewConstMetric`: `none` is a panic on the slice expression, `some ms` the
calls the body makes (none for a line that is skipped). -/
def statsBody {F : Type} (ParseFloat : GoString → Option F) (line : GoString) :
    Option (List (Metric F)) :=
  match parseStatLine ParseFloat line with
  | .error _ => some []
  | .ok stat =>
    match slice stat.objectType 0 4 with
    | none => none
    | some p => some (dispatch stat p)

/-- The statements `ch <- prometheus.MustNewConstMetric(...)` for the given calls, in order: the
metrics sent on `ch`, and whether a call panicked (nothing is sent from that call on). -/
def sendAll {F : Type} : List (Metric F) → List (Metric F) × Bool
  | [] => ([], false)
  | c :: cs =>
    match MustNewConstMetric c with
    | none => ([], true)
    | some m => (m :: (sendAll cs).1, (sendAll cs).2)

/-- How one iteration of the loop ends: it goes on to the next read, it panics on an index or
slice expression, or it panics in `prometheus.MustNewConstMetric`. -/
inductive IterEnd where
  | next
  | panicked
  | metricPanicked
  deriving DecidableEq, Repr

/-- The body of the `for` loop of `collect` after the end-of-output test, for one line: the
metrics sent on `ch` and how the iteration ends. -/
def statsIter {F : Type} (ParseFloat : GoString → Option F) (line : GoString) :
    List (Metric F) × IterEnd :=
  match statsBody ParseFloat line with
  | none => ([], .panicked)
  | some calls => ((sendAll calls).1, if (sendAll calls).2 then .metricPanicked else .next)

/-- What the `for` loop of `collect` has done when it ends: the metrics sent on `ch`, whether it
panicked on an index or slice expression, and whether it panicked in
`prometheus.MustNewConstMetric`. -/
structure LoopResult (F : Type) where
  sent : List (Metric F)
  panicked : Bool
  metricPanicked : Bool
  deriving DecidableEq, Repr

/-- The `for` loop of `collect` on a reader with the given input left.  The first argument bounds
the number of iterations; every iteration that continues consumes a line, so `buff.length + 1`
always suffices. -/
def statsLoop {F : Type} (ParseFloat : GoString → Option F) :
    Nat → GoString → LoopResult F
  | 0, _ => ⟨[], false, false⟩
  | fuel + 1, buff =>
    let r := ReadString 10 buff
    if r.2.1 then ⟨[], false, false⟩
    else
      match r.1[0]? with
      | none => ⟨[], true, false⟩
      | some c =>
        if c = 46 then ⟨[], false, false⟩
        else
          match (statsIter ParseFloat r.1).2 with
          | .panicked => ⟨(statsIter ParseFloat r.1).1, true, false⟩
          | .metricPanicked => ⟨(statsIter ParseFloat r.1).1, false, true⟩
          | .next =>
            ⟨(statsIter ParseFloat r.1).1 ++ (statsLoop ParseFloat fuel r.2.2).sent,
              (statsLoop ParseFloat fuel r.2.2).panicked,
              (statsLoop ParseFloat fuel r.2.2).metricPanicked⟩

/-- The control socket as one session sees it: the errors (their text) of `net.Dial`,
`conn.SetDeadline` and `conn.Write`, `none` for `nil`; the bytes the peer delivers; and the text
of the error that ends them (end of file, deadline). -/
structure Conn where
  dialErr : Option GoString
  deadlineErr : Option GoString
  writeErr : Option GoString
  input : GoString
  inputErr : GoString
  deriving DecidableEq, Repr

/-- How a call of `collect` ends: it returns (with an error or `nil`), it panics on an index or
slice expression out of range, or it panics in `prometheus.MustNewConstMetric`. -/
inductive Exit where
  | returned (err : Option GoString)
  | panicked
  | metricPanicked
  deriving DecidableEq, Repr

/-- Go method `Exporter.collect`: the metrics sent on `ch`, in order, and how the call ends.  The
three calls of `prometheus.MustNewConstMetric` for `up` pass no label value and so cannot
panic. -/
def collect {F : Type} [OfNat F 0] [OfNat F 1] (ParseFloat : GoString → Option F) (c : Conn) :
    List (Metric F) × Exit :=
  match c.dialErr with
  | some err =>
    ([⟨.up, .GaugeValue, 0, []⟩],
      .returned (some (ascii "Error connecting to syslog-ng: " ++ err)))
  | none =>
    match c.deadlineErr with
    | some err => ([], .returned (some (ascii "Failed to set conn deadline: " ++ err)))
    | none =>
      match c.writeErr with
      | some err =>
        ([⟨.up, .GaugeValue, 0, []⟩],
          .returned (some (ascii "Error writing to control socket: " ++ err)))
      | none =>
        let header := ReadString 10 c.input
        if header.2.1 then
          ([], .returned (some (ascii "Error reading header from control socket: " ++ c.inputErr)))
        else
          let r := statsLoop ParseFloat (header.2.2.length + 1) header.2.2
          (⟨.up, .GaugeValue, 1, []⟩ :: r.sent,
            if r.panicked then .panicked
            else if r.metricPanicked then .metricPanicked
            else .returned none)

/-! ## `processCommand` -/

/-- A Go `map[string]any` all of whose values are strings: the entries, at most one per key. -/
abbrev StrMap := List (GoString × GoString)

/-- Map assignment `m[k] = v`. -/
def StrMap.set (m : StrMap) (k v : GoString) : StrMap :=
  (k, v) :: m.filter (fun e => decide (e.1 ≠ k))

/-- Map lookup `m[k]`, `none` when the key is absent. -/
def StrMap.get (m : StrMap) (k : GoString) : Option GoString :=
  (m.find? (fun e => decide (e.1 = k))).map (fun e => e.2)

/-- Function `strconv.Itoa` on a non-negative number (the verb `%d`). -/
def Itoa (n : Nat) : GoString := (Nat.toDigits 10 n).map Char.toNat

/-- The local variables of `processCommand` that the loop updates: `payload["message"]`,
`payloadData` and `errors`. -/
structure CmdState where
  message : Option GoString
  payloadData : StrMap
  errors : List GoString
  deriving DecidableEq, Repr

/-- The `switch command` statement in the loop of `processCommand`, for the line `line` read as
number `lineNo`. -/
def cmdBody (command line : GoString) (lineNo : Nat) (st : CmdState) : CmdState :=
  if command = ascii "RELOAD" then
    let st := { st with message := some line }
    if !Contains line (ascii "OK Config reload successful") then
      { st with errors := st.errors ++ [ascii "failed to reload"] }
    else st
  else if command = ascii "HEALTHCHECK" then
    let part := SplitN (TrimSpace line) 32 3
    if lineNo = 0 ∧ part.length = 3 then
      if part.getD 0 [] = ascii "OK" then
        { st with message := some (ascii "OK"),
                  payloadData := st.payloadData.set (part.getD 1 []) (part.getD 2 []) }
      else { st with errors := st.errors ++ [line] }
    else if part.length = 2 then
      { st with payloadData := st.payloadData.set (part.getD 0 []) (part.getD 1 []) }
    else
      { st with errors := st.errors ++
          [ascii "error: invalid/unexpected results, line: " ++ Itoa lineNo ++ ascii ": " ++ line] }
  else st

/-- The `for` loop of `processCommand` on a reader with the given input left, from line number
`lineNo` and state `st`: the state at the `break`, `none` for a panic.  The first argument bounds
the number of iterations; `buff.length + 1` always suffices. -/
def cmdLoop (command : GoString) : Nat → GoString → Nat → CmdState → Option CmdState
  | 0, _, _, st => some st
  | fuel + 1, buff, lineNo, st =>
    let r := ReadString 10 buff
    if r.2.1 then some st
    else
      match r.1[0]? with
      | none => none
      | some c =>
        if c = 46 then some st
        else cmdLoop command fuel r.2.2 (lineNo + 1) (cmdBody command r.1 lineNo st)

/-- The JSON object `payload` that `processCommand` encodes; `none` is an absent key. -/
structure Payload where
  message : Option GoString
  status : GoString
  error_messages : Option (List GoString)
  data : Option StrMap
  deriving DecidableEq, Repr

/-- What `processCommand` does to the HTTP response: `JSONError` with a status code and message,
the encoded payload (status code 200), or a panic. -/
inductive Response where
  | jsonError (code : Nat) (message : GoString)
  | json (payload : Payload)
  | panicked
  deriving DecidableEq, Repr

/-- The statements of `processCommand` after the loop: status, error messages and data. -/
def finish (st : CmdState) : Payload :=
  if st.errors.length ≠ 0 then
    { message := st.message, status := ascii "failed", error_messages := some st.errors,
      data := some st.payloadData }
  else
    { message := st.message, status := ascii "success", error_messages := none,
      data := some st.payloadData }

/-- Go function `processCommand`: what it writes to the HTTP response.  Encoding the payload, a
map of strings, string slices and a map of strings, is taken to succeed. -/
def processCommand (c : Conn) (command : GoString) : Response :=
  match c.dialErr with
  | some err => .jsonError 500 (ascii "error connecting to syslog-ng: " ++ err)
  | none =>
    match c.deadlineErr with
    | some err => .jsonError 500 (ascii "failed to set conn deadline: " ++ err)
    | none =>
      match c.writeErr with
      | some err => .jsonError 500 (ascii "error writing to control socket: " ++ err)
      | none =>
        match cmdLoop command (c.input.length + 1) c.input 0 ⟨none, [], []⟩ with
        | none => .panicked
        | some st => .json (finish st)

/-! ## Notions used in the statements -/

/-- A line as `ReadString` returns it with no error, other than the end-of-output line: it ends in
its only newline and does not begin with `.`. -/
def IsLine (l : GoString) : Prop := ∃ b, 10 ∉ b ∧ l = b ++ [10] ∧ l[0]? ≠ some 46

/-- Input on which the loops stop at the next read: it holds no newline (the read fails), or it
begins with `.` (the end-of-output line). -/
def EndsOutput (tail : GoString) : Prop := 10 ∉ tail ∨ tail[0]? = some 46

instance (l : GoString) : Decidable (EndsOutput l) := by unfold EndsOutput; infer_instance

/-- The state of `processCommand` after the lines `ls`, read as numbers `n`, `n + 1`, ... -/
def cmdFold (command : GoString) : List GoString → Nat → CmdState → CmdState
  | [], _, st => st
  | l :: ls, n, st => cmdFold command ls (n + 1) (cmdBody command l n st)

/-- The text before the first `;` of the trimmed line (all of it when it holds no `;`): the
object-type field of a STATS line. -/
def objectTypeField (line : GoString) : GoString :=
  (TrimSpace line).takeWhile (fun b => decide (b ≠ 59))

/-- The index at which `DecodeLastRuneInString` decodes, for a string that ends in a non-ASCII
byte. -/
def lastStart (s : GoString) : Nat :=
  if scanStart s (if (s.length : Int) - 4 < 0 then 0 else (s.length : Int) - 4) 4
      ((s.length : Int) - 2) < 0 then 0
  else (scanStart s (if (s.length : Int) - 4 < 0 then 0 else (s.length : Int) - 4) 4
      ((s.length : Int) - 2)).toNat

/-- A response line `key value`: key and value are not empty, hold neither a space nor a newline
byte, the key does not begin with a white-space rune nor with `.`, and the value does not end with
a white-space rune.  (All of it holds when key and value are free of white space and the line is
not the end-of-output line.) -/
def PairLine (k v : GoString) : Prop :=
  k ≠ [] ∧ v ≠ [] ∧ 32 ∉ k ∧ 32 ∉ v ∧ 10 ∉ k ∧ 10 ∉ v ∧
    IsSpace (DecodeRuneInString k).1 = false ∧ IsSpace (DecodeLastRuneInString v).1 = false ∧
    k[0]? ≠ some 46

instance (k v : GoString) : Decidable (PairLine k v) := by unfold PairLine; infer_instance

/-- The value of the last pair with key `k`, if any. -/
def lastValue (kvs : List (GoString × GoString)) (k : GoString) : Option GoString :=
  (kvs.reverse.find? (fun e => decide (e.1 = k))).map (fun e => e.2)

/-! ## Lemmas on `IndexByte`, `genSplit` and `SplitN` -/

theorem IndexByte_of_not_mem (sep : Nat) (s : GoString) (h : sep ∉ s) :
    IndexByte s sep = none := by
  induction s with
  | nil => rfl
  | cons b t ih =>
    simp only [List.mem_cons, not_or] at h
    have hb : ¬ b = sep := fun e => h.1 e.symm
    simp [IndexByte, hb, ih h.2]

theorem IndexByte_append (sep : Nat) (a b : GoString) (h : sep ∉ a) :
    IndexByte (a ++ sep :: b) sep = some a.length := by
  induction a with
  | nil => simp [IndexByte]
  | cons x t ih =>
    simp only [List.mem_cons, not_or] at h
    have hx : ¬ x = sep := fun e => h.1 e.symm
    simp [IndexByte, hx, ih h.2]

theorem genSplit_of_not_mem (sep n : Nat) (s : GoString) (h : sep ∉ s) :
    genSplit sep n s = [s] := by
  cases n with
  | zero => rfl
  | succ n => simp [genSplit, IndexByte_of_not_mem sep s h]

theorem genSplit_append (sep n : Nat) (a b : GoString) (h : sep ∉ a) :
    genSplit sep (n + 1) (a ++ sep :: b) = a :: genSplit sep n b := by
  simp [genSplit, IndexByte_append sep a b h]

/-- A string with at least one separator splits at the first one. -/
theorem exists_first_sep (sep : Nat) (s : GoString) (h : 0 < s.count sep) :
    ∃ a b, sep ∉ a ∧ s = a ++ sep :: b ∧ b.count sep + 1 = s.count sep := by
  induction s with
  | nil => simp at h
  | cons x t ih =>
    by_cases hx : x = sep
    · subst hx
      exact ⟨[], t, by simp, by simp, by simp⟩
    · have hx2 : (x == sep) = false := by simpa using hx
      have ht : 0 < t.count sep := by simpa [List.count_cons, hx2] using h
      obtain ⟨a, b, ha, hs, hc⟩ := ih ht
      refine ⟨x :: a, b, ?_, by simp [hs], ?_⟩
      · simp only [List.mem_cons, not_or]
        exact ⟨fun e => hx e.symm, ha⟩
      · simpa [List.count_cons, hx2] using hc

theorem genSplit_length (sep : Nat) (n : Nat) (s : GoString) :
    (genSplit sep n s).length = min (s.count sep) n + 1 := by
  induction n generalizing s with
  | zero => simp [genSplit]
  | succ n ih =>
    by_cases h : 0 < s.count sep
    · obtain ⟨a, b, ha, hs, hc⟩ := exists_first_sep sep s h
      rw [hs, genSplit_append sep n a b ha, List.length_cons, ih, ← hs, ← hc]
      omega
    · have h0 : s.count sep = 0 := by omega
      have hmem : sep ∉ s := List.count_eq_zero.mp h0
      rw [genSplit_of_not_mem sep _ s hmem, h0]
      simp

/-- Cuts beyond the number of separators change nothing. -/
theorem genSplit_stable (sep : Nat) (n m : Nat) (s : GoString) (hn : s.count sep ≤ n)
    (hm : s.count sep ≤ m) : genSplit sep n s = genSplit sep m s := by
  induction n generalizing s m with
  | zero =>
    have h0 : s.count sep = 0 := by omega
    rw [genSplit_of_not_mem sep m s (List.count_eq_zero.mp h0)]
    rfl
  | succ n ih =>
    by_cases h : 0 < s.count sep
    · obtain ⟨a, b, ha, hs, hc⟩ := exists_first_sep sep s h
      obtain ⟨m, rfl⟩ : ∃ k, m = k + 1 := ⟨m - 1, by omega⟩
      rw [hs, genSplit_append sep n a b ha, genSplit_append sep m a b ha,
        ih m b (by omega) (by omega)]
    · have h0 : s.count sep = 0 := by omega
      have hmem : sep ∉ s := List.count_eq_zero.mp h0
      rw [genSplit_of_not_mem sep _ s hmem, genSplit_of_not_mem sep _ s hmem]

/-- The clamp of `n` to `len(s) + 1` in `genSplit` has no effect on the result. -/
theorem SplitN_eq (s : GoString) (sep n : Nat) (hn : 0 < n) :
    SplitN s sep n = genSplit sep (n - 1) s := by
  have hc : s.count sep ≤ s.length := List.count_le_length _ _
  unfold SplitN
  rw [if_neg (by omega)]
  split
  · exact genSplit_stable sep _ _ s (by omega) (by omega)
  · rfl

theorem SplitN_length (s : GoString) (sep n : Nat) (hn : 0 < n) :
    (SplitN s sep n).length = min (s.count sep + 1) n := by
  rw [SplitN_eq s sep n hn, genSplit_length]
  omega

theorem genSplit_intercalate (sep n : Nat) (s : GoString) :
    [sep].intercalate (genSplit sep n s) = s := by
  induction n generalizing s with
  | zero => simp [genSplit, List.intercalate]
  | succ n ih =>
    by_cases h : 0 < s.count sep
    · obtain ⟨a, b, ha, hs, -⟩ := exists_first_sep sep s h
      have hne : genSplit sep n b ≠ [] := by
        intro e
        have := genSplit_length sep n b
        rw [e] at this
        simp at this
      rw [hs, genSplit_append sep n a b ha]
      obtain ⟨x, xs, hx⟩ := List.exists_cons_of_ne_nil hne
      have := ih b
      rw [hx] at this ⊢
      simp only [List.intercalate, List.intersperse_cons_cons, List.flatten_cons] at this ⊢
      simp [this]
    · have h0 : s.count sep = 0 := by omega
      rw [genSplit_of_not_mem sep _ s (List.count_eq_zero.mp h0)]
      simp [List.intercalate]

/-- Six semicolon-separated segments, the first five free of `;`, are what `SplitN` returns. -/
theorem SplitN_six (s0 s1 s2 s3 s4 rest : GoString) (h0 : 59 ∉ s0) (h1 : 59 ∉ s1)
    (h2 : 59 ∉ s2) (h3 : 59 ∉ s3) (h4 : 59 ∉ s4) :
    SplitN (s0 ++ 59 :: (s1 ++ 59 :: (s2 ++ 59 :: (s3 ++ 59 :: (s4 ++ 59 :: rest))))) 59 6 =
      [s0, s1, s2, s3, s4, rest] := by
  rw [SplitN_eq _ _ _ (by decide)]
  simp only [Nat.reduceSub]
  rw [genSplit_append 59 4 s0 _ h0, genSplit_append 59 3 s1 _ h1, genSplit_append 59 2 s2 _ h2,
    genSplit_append 59 1 s3 _ h3, genSplit_append 59 0 s4 _ h4]
  rfl

/-! ## Lemmas on `ReadString` and the two loops -/

theorem ReadString_of_not_mem (s : GoString) (h : 10 ∉ s) : ReadString 10 s = (s, true, []) := by
  induction s with
  | nil => rfl
  | cons b t ih =>
    simp only [List.mem_cons, not_or] at h
    have hb : ¬ b = 10 := fun e => h.1 e.symm
    simp [ReadString, hb, ih h.2]

theorem ReadString_append (l rest : GoString) (h : 10 ∉ l) :
    ReadString 10 (l ++ 10 :: rest) = (l ++ [10], false, rest) := by
  induction l with
  | nil => simp [ReadString]
  | cons b t ih =>
    simp only [List.mem_cons, not_or] at h
    have hb : ¬ b = 10 := fun e => h.1 e.symm
    simp [ReadString, hb, ih h.2]

/-- A read with no error returns a line that ends in its only newline, and leaves the rest. -/
theorem ReadString_ok (buff : GoString) (h : (ReadString 10 buff).2.1 = false) :
    ∃ l, 10 ∉ l ∧ buff = l ++ 10 :: (ReadString 10 buff).2.2 ∧
      (ReadString 10 buff).1 = l ++ [10] := by
  induction buff with
  | nil => simp [ReadString] at h
  | cons b t ih =>
    by_cases hb : b = 10
    · subst hb
      exact ⟨[], by simp, by simp [ReadString], by simp [ReadString]⟩
    · simp only [ReadString, hb, if_false] at h ⊢
      obtain ⟨l, hl, h1, h2⟩ := ih h
      refine ⟨b :: l, ?_, ?_, ?_⟩
      · simp only [List.mem_cons, not_or]
        exact ⟨fun e => hb e.symm, hl⟩
      · rw [List.cons_append, ← h1]
      · rw [h2, List.cons_append]

theorem ReadString_rest_length (buff : GoString) (h : (ReadString 10 buff).2.1 = false) :
    (ReadString 10 buff).2.2.length < buff.length := by
  obtain ⟨l, -, h1, -⟩ := ReadString_ok buff h
  have := congrArg List.length h1
  simp only [List.length_append, List.length_cons] at this
  omega

theorem statsLoop_fuel {F : Type} (ParseFloat : GoString → Option F) (f1 f2 : Nat)
    (buff : GoString) (h1 : buff.length < f1) (h2 : buff.length < f2) :
    statsLoop ParseFloat f1 buff = statsLoop ParseFloat f2 buff := by
  induction f1 generalizing f2 buff with
  | zero => omega
  | succ f1 ih =>
    obtain ⟨f2, rfl⟩ : ∃ k, f2 = k + 1 := ⟨f2 - 1, by omega⟩
    simp only [statsLoop]
    by_cases he : (ReadString 10 buff).2.1 = true
    · simp [he]
    · have he2 : (ReadString 10 buff).2.1 = false := by simpa using he
      have hlen := ReadString_rest_length buff he2
      rw [ih f2 _ (by omega) (by omega)]

theorem cmdLoop_fuel (command : GoString) (f1 f2 : Nat) (buff : GoString) (n : Nat)
    (st : CmdState) (h1 : buff.length < f1) (h2 : buff.length < f2) :
    cmdLoop command f1 buff n st = cmdLoop command f2 buff n st := by
  induction f1 generalizing f2 buff n st with
  | zero => omega
  | succ f1 ih =>
    obtain ⟨f2, rfl⟩ : ∃ k, f2 = k + 1 := ⟨f2 - 1, by omega⟩
    simp only [cmdLoop]
    by_cases he : (ReadString 10 buff).2.1 = true
    · simp [he]
    · have he2 : (ReadString 10 buff).2.1 = false := by simpa using he
      have hlen := ReadString_rest_length buff he2
      rw [ih f2 _ _ _ (by omega) (by omega)]

theorem IsLine_append (ln rest : GoString) (h : IsLine ln) :
    ReadString 10 (ln ++ rest) = (ln, false, rest) ∧ ∃ c, ln[0]? = some c ∧ c ≠ 46 := by
  obtain ⟨b, hb, rfl, h46⟩ := h
  constructor
  · simpa using ReadString_append b rest hb
  · cases b with
    | nil => exact ⟨10, by simp, by decide⟩
    | cons x t =>
      refine ⟨x, by simp, ?_⟩
      intro e
      apply h46
      simp [e]

theorem cmdLoop_end (command : GoString) (fuel : Nat) (tail : GoString) (n : Nat)
    (st : CmdState) (h : EndsOutput tail) : cmdLoop command fuel tail n st = some st := by
  cases fuel with
  | zero => rfl
  | succ fuel =>
    simp only [cmdLoop]
    rcases h with h | h
    · simp [ReadString_of_not_mem tail h]
    · by_cases he : (ReadString 10 tail).2.1 = true
      · simp [he]
      · have he2 : (ReadString 10 tail).2.1 = false := by simpa using he
        obtain ⟨l, -, h1, h2⟩ := ReadString_ok tail he2
        have h0 : (ReadString 10 tail).1[0]? = some 46 := by
          rw [h2]
          rw [h1] at h
          cases l with
          | nil => simp at h
          | cons x t => simpa using h
        simp [he2, h0]

/-- The loop of `processCommand` on lines followed by the end of the output runs the command's
`switch` on each line in turn. -/
theorem cmdLoop_lines (command : GoString) (ls : List GoString) (tail : GoString)
    (hls : ∀ l ∈ ls, IsLine l) (ht : EndsOutput tail) (n : Nat) (st : CmdState) :
    cmdLoop command ((ls.flatten ++ tail).length + 1) (ls.flatten ++ tail) n st =
      some (cmdFold command ls n st) := by
  induction ls generalizing n st with
  | nil => simpa [cmdFold] using cmdLoop_end command _ tail n st ht
  | cons l ls ih =>
    have hl : IsLine l := hls l (List.mem_cons_self _ _)
    obtain ⟨hr, c, hc, hc46⟩ := IsLine_append l (ls.flatten ++ tail) hl
    have e : (l :: ls).flatten ++ tail = l ++ (ls.flatten ++ tail) := by simp
    rw [e]
    simp only [cmdLoop, hr, hc, hc46, if_false, Bool.false_eq_true, cmdFold]
    rw [cmdLoop_fuel command _ ((ls.flatten ++ tail).length + 1) _ _ _ ?_ (by omega)]
    · exact ih (fun x hx => hls x (List.mem_cons_of_mem _ hx)) _ _
    · obtain ⟨b, -, rfl, -⟩ := hl
      simp only [List.length_append, List.length_cons, List.length_nil]
      omega

/-- With a working connection, `processCommand` on lines followed by the end of the output
encodes the payload built from the state after the last line. -/
theorem processCommand_lines (c : Conn) (command : GoString) (ls : List GoString)
    (tail : GoString) (hd : c.dialErr = none) (hdl : c.deadlineErr = none)
    (hw : c.writeErr = none) (hin : c.input = ls.flatten ++ tail)
    (hls : ∀ l ∈ ls, IsLine l) (ht : EndsOutput tail) :
    processCommand c command = .json (finish (cmdFold command ls 0 ⟨none, [], []⟩)) := by
  simp only [processCommand, hd, hdl, hw, hin]
  rw [cmdLoop_lines command ls tail hls ht]

/-! ## `parseStatLine`: the claims -/

/-- A string with at least five `;` is five segments free of `;`, each followed by `;`, and a
remainder. -/
theorem exists_six_segments (s : GoString) (h : 5 ≤ s.count 59) :
    ∃ s0 s1 s2 s3 s4 rest, 59 ∉ s0 ∧ 59 ∉ s1 ∧ 59 ∉ s2 ∧ 59 ∉ s3 ∧ 59 ∉ s4 ∧
      s = s0 ++ 59 :: (s1 ++ 59 :: (s2 ++ 59 :: (s3 ++ 59 :: (s4 ++ 59 :: rest)))) := by
  obtain ⟨s0, r0, h0, e0, c0⟩ := exists_first_sep 59 s (by omega)
  obtain ⟨s1, r1, h1, e1, c1⟩ := exists_first_sep 59 r0 (by omega)
  obtain ⟨s2, r2, h2, e2, c2⟩ := exists_first_sep 59 r1 (by omega)
  obtain ⟨s3, r3, h3, e3, c3⟩ := exists_first_sep 59 r2 (by omega)
  obtain ⟨s4, r4, h4, e4, -⟩ := exists_first_sep 59 r3 (by omega)
  exact ⟨s0, s1, s2, s3, s4, r4, h0, h1, h2, h3, h4, by rw [e0, e1, e2, e3, e4]⟩

theorem parseStatLine_six {F : Type} (ParseFloat : GoString → Option F)
    (line s0 s1 s2 s3 s4 rest : GoString)
    (hs : SplitN (TrimSpace line) 59 6 = [s0, s1, s2, s3, s4, rest]) :
    parseStatLine ParseFloat line =
      if s0.length < 4 then .error (.invalidName s0)
      else
        match ParseFloat rest with
        | none => .error (.parseFloat rest)
        | some val => .ok ⟨s0, s1, s2, s3, s4, val⟩ := by
  simp only [parseStatLine, hs]
  simp

theorem takeWhile_first_sep (a b : GoString) (h : 59 ∉ a) :
    (a ++ 59 :: b).takeWhile (fun x => decide (x ≠ 59)) = a := by
  induction a with
  | nil => simp
  | cons x t ih =>
    simp only [List.mem_cons, not_or] at h
    have hx : ¬ x = 59 := fun e => h.1 e.symm
    have := ih h.2
    simp only [decide_not] at this
    simp [List.takeWhile, hx, this]

/-- Every record `parseStatLine` returns has an object type of at least 4 bytes. -/
theorem parseStatLine_ok_length {F : Type} (ParseFloat : GoString → Option F)
    (line : GoString) (stat : Stat F) (h : parseStatLine ParseFloat line = .ok stat) :
    4 ≤ stat.objectType.length := by
  unfold parseStatLine at h
  simp only at h
  split at h
  · cases h
  · split at h
    · cases h
    · rename_i h4
      split at h
      · cases h
      · cases h
        simpa using h4

/-- The split of a line whose trimmed form holds at least five `;`. -/
theorem split_six_fields (line : GoString) (h : 5 ≤ (TrimSpace line).count 59) :
    ∃ s0 s1 s2 s3 s4 rest, 59 ∉ s0 ∧ 59 ∉ s1 ∧ 59 ∉ s2 ∧ 59 ∉ s3 ∧ 59 ∉ s4 ∧
      TrimSpace line = s0 ++ 59 :: (s1 ++ 59 :: (s2 ++ 59 :: (s3 ++ 59 :: (s4 ++ 59 :: rest)))) ∧
      SplitN (TrimSpace line) 59 6 = [s0, s1, s2, s3, s4, rest] ∧
      [59].intercalate (SplitN (TrimSpace line) 59 6) = TrimSpace line := by
  obtain ⟨s0, s1, s2, s3, s4, rest, h0, h1, h2, h3, h4, e⟩ := exists_six_segments _ h
  have hs : SplitN (TrimSpace line) 59 6 = [s0, s1, s2, s3, s4, rest] := by
    rw [e]
    exact SplitN_six s0 s1 s2 s3 s4 rest h0 h1 h2 h3 h4
  refine ⟨s0, s1, s2, s3, s4, rest, h0, h1, h2, h3, h4, e, hs, ?_⟩
  rw [SplitN_eq _ _ _ (by decide)]
  exact genSplit_intercalate 59 _ _

/-- C2: every line whose trimmed form holds at least five `;` is, after trimming, five segments
free of `;` and a remainder; `SplitN` returns exactly these six, which joined with `;` give the
trimmed line back (the remainder is never split, whatever it holds); and when the first segment
has at least 4 bytes and the remainder parses as a number, `parseStatLine` returns the record
made of the five segments in order and the parsed value. -/
theorem C2_parseStatLine_well_formed {F : Type} (ParseFloat : GoString → Option F)
    (line : GoString) (h : 5 ≤ (TrimSpace line).count 59) :
    ∃ s0 s1 s2 s3 s4 rest, 59 ∉ s0 ∧ 59 ∉ s1 ∧ 59 ∉ s2 ∧ 59 ∉ s3 ∧ 59 ∉ s4 ∧
      TrimSpace line = s0 ++ 59 :: (s1 ++ 59 :: (s2 ++ 59 :: (s3 ++ 59 :: (s4 ++ 59 :: rest)))) ∧
      SplitN (TrimSpace line) 59 6 = [s0, s1, s2, s3, s4, rest] ∧
      [59].intercalate (SplitN (TrimSpace line) 59 6) = TrimSpace line ∧
      (4 ≤ s0.length → ∀ v, ParseFloat rest = some v →
        parseStatLine ParseFloat line = .ok ⟨s0, s1, s2, s3, s4, v⟩) := by
  obtain ⟨s0, s1, s2, s3, s4, rest, h0, h1, h2, h3, h4, e, hs, hj⟩ := split_six_fields line h
  refine ⟨s0, s1, s2, s3, s4, rest, h0, h1, h2, h3, h4, e, hs, hj, ?_⟩
  intro hlen v hv
  rw [parseStatLine_six ParseFloat line s0 s1 s2 s3 s4 rest hs, if_neg (by omega), hv]

/-- C2 on the line `dst.file;d_mesg#0;/var/log/messages;a;dropped;0`. -/
theorem C2_parseStatLine_well_formed_witness :
    5 ≤ (TrimSpace (ascii "dst.file;d_mesg#0;/var/log/messages;a;dropped;0\n")).count 59 ∧
    ∃ s0 s1 s2 s3 s4 rest, 59 ∉ s0 ∧ 59 ∉ s1 ∧ 59 ∉ s2 ∧ 59 ∉ s3 ∧ 59 ∉ s4 ∧
      TrimSpace (ascii "dst.file;d_mesg#0;/var/log/messages;a;dropped;0\n") =
        s0 ++ 59 :: (s1 ++ 59 :: (s2 ++ 59 :: (s3 ++ 59 :: (s4 ++ 59 :: rest)))) ∧
      SplitN (TrimSpace (ascii "dst.file;d_mesg#0;/var/log/messages;a;dropped;0\n")) 59 6 =
        [s0, s1, s2, s3, s4, rest] ∧
      [59].intercalate
          (SplitN (TrimSpace (ascii "dst.file;d_mesg#0;/var/log/messages;a;dropped;0\n")) 59 6) =
        TrimSpace (ascii "dst.file;d_mesg#0;/var/log/messages;a;dropped;0\n") ∧
      (4 ≤ s0.length → ∀ v, parseDigits rest = some v →
        parseStatLine parseDigits (ascii "dst.file;d_mesg#0;/var/log/messages;a;dropped;0\n") =
          .ok ⟨s0, s1, s2, s3, s4, v⟩) :=
  ⟨by decide,
    C2_parseStatLine_well_formed parseDigits
      (ascii "dst.file;d_mesg#0;/var/log/messages;a;dropped;0\n") (by decide)⟩

/-- C3: a line whose trimmed form holds fewer than five `;` (fewer than 6 fields) is rejected
with the insufficient-parts error, which carries the number of fields; no record is returned. -/
theorem C3_insufficient_fields {F : Type} (ParseFloat : GoString → Option F)
    (line : GoString) (h : (TrimSpace line).count 59 < 5) :
    parseStatLine ParseFloat line =
      .error (.insufficientParts ((TrimSpace line).count 59 + 1)) := by
  have hl := SplitN_length (TrimSpace line) 59 6 (by decide)
  have hl2 : (SplitN (TrimSpace line) 59 6).length = (TrimSpace line).count 59 + 1 := by omega
  simp only [parseStatLine]
  rw [if_pos (by omega), hl2]

/-- C3 on the line `center;;received;a;processed` (five fields). -/
theorem C3_insufficient_fields_witness :
    (TrimSpace (ascii "center;;received;a;processed\n")).count 59 < 5 ∧
    parseStatLine parseDigits (ascii "center;;received;a;processed\n") =
      .error (.insufficientParts
        ((TrimSpace (ascii "center;;received;a;processed\n")).count 59 + 1)) :=
  ⟨by decide, C3_insufficient_fields parseDigits (ascii "center;;received;a;processed\n")
    (by decide)⟩

/-- C4 as stated fails: the line `ab;c` has the object-type field `ab`, shorter than 4, and is
rejected with the insufficient-parts error (2 parts), not with the invalid-name error. -/
theorem C4_counterexample :
    ¬ ∀ line : GoString, (objectTypeField line).length < 4 →
      ∃ name, parseStatLine parseDigits line = .error (.invalidName name) := by
  intro h
  obtain ⟨name, hn⟩ := h (ascii "ab;c\n") (by decide)
  have h2 : parseStatLine parseDigits (ascii "ab;c\n") = .error (.insufficientParts 2) := by
    decide
  rw [h2] at hn
  cases hn

/-- C4, amended: a line whose trimmed form holds at least five `;` (so that the field count
passes) and whose object-type field is shorter than 4 bytes is rejected with the invalid-name
error, which carries that field. -/
theorem C4_invalid_object_type {F : Type} (ParseFloat : GoString → Option F)
    (line : GoString) (h5 : 5 ≤ (TrimSpace line).count 59)
    (h : (objectTypeField line).length < 4) :
    parseStatLine ParseFloat line = .error (.invalidName (objectTypeField line)) := by
  obtain ⟨s0, s1, s2, s3, s4, rest, h0, -, -, -, -, e, hs, -⟩ := split_six_fields line h5
  have hf : objectTypeField line = s0 := by
    unfold objectTypeField
    rw [e]
    exact takeWhile_first_sep s0 _ h0
  rw [hf] at h ⊢
  rw [parseStatLine_six ParseFloat line s0 s1 s2 s3 s4 rest hs, if_pos h]

/-- C4, amended, on the line `src;s_sys;;a;processed;72`. -/
theorem C4_invalid_object_type_witness :
    5 ≤ (TrimSpace (ascii "src;s_sys;;a;processed;72\n")).count 59 ∧
    (objectTypeField (ascii "src;s_sys;;a;processed;72\n")).length < 4 ∧
    parseStatLine parseDigits (ascii "src;s_sys;;a;processed;72\n") =
      .error (.invalidName (objectTypeField (ascii "src;s_sys;;a;processed;72\n"))) :=
  ⟨by decide, by decide,
    C4_invalid_object_type parseDigits (ascii "src;s_sys;;a;processed;72\n") (by decide)
      (by decide)⟩

/-! ## The STATS loop: the claims -/

theorem slice_four (s : GoString) (h : 4 ≤ s.length) : slice s 0 4 = some (s.take 4) := by
  simp [slice, h]

theorem statsBody_ok {F : Type} (ParseFloat : GoString → Option F) (line : GoString)
    (stat : Stat F) (h : parseStatLine ParseFloat line = .ok stat) :
    statsBody ParseFloat line = some (dispatch stat (stat.objectType.take 4)) := by
  simp only [statsBody, h, slice_four _ (parseStatLine_ok_length ParseFloat line stat h)]

theorem dispatch_labels {F : Type} (stat : Stat F) (p : GoString) :
    ∀ m ∈ dispatch stat p, m.labelValues = [stat.objectType, stat.id, stat.instance_] := by
  intro m hm
  unfold dispatch at hm
  split_ifs at hm <;> simp at hm <;> subst hm <;> rfl

theorem sendAll_sub {F : Type} (cs : List (Metric F)) : ∀ m ∈ (sendAll cs).1, m ∈ cs := by
  induction cs with
  | nil => simp [sendAll]
  | cons c cs ih =>
    intro m hm
    simp only [sendAll, MustNewConstMetric] at hm
    split_ifs at hm
    · simp only [List.mem_cons] at hm ⊢
      rcases hm with hm | hm
      · exact Or.inl hm
      · exact Or.inr (ih m hm)
    · simp at hm

theorem dispatch_no_up {F : Type} (stat : Stat F) (p : GoString) :
    ∀ m ∈ dispatch stat p, m.desc ≠ .up := by
  intro m hm
  unfold dispatch at hm
  split_ifs at hm <;> simp at hm <;> subst hm <;> simp

theorem statsBody_isSome {F : Type} (ParseFloat : GoString → Option F) (line : GoString) :
    ∃ calls, statsBody ParseFloat line = some calls ∧ ∀ m ∈ calls, m.desc ≠ .up := by
  cases hp : parseStatLine ParseFloat line with
  | error e => exact ⟨[], by simp [statsBody, hp], by simp⟩
  | ok stat => exact ⟨_, statsBody_ok ParseFloat line stat hp, dispatch_no_up _ _⟩

theorem statsIter_no_panic {F : Type} (ParseFloat : GoString → Option F) (line : GoString) :
    (statsIter ParseFloat line).2 ≠ .panicked ∧
      ∀ m ∈ (statsIter ParseFloat line).1, m.desc ≠ .up := by
  obtain ⟨calls, hc, hup⟩ := statsBody_isSome ParseFloat line
  simp only [statsIter, hc]
  constructor
  · split_ifs <;> simp
  · intro m hm
    exact hup m (sendAll_sub calls m hm)

theorem statsLoop_no_up {F : Type} (ParseFloat : GoString → Option F) (fuel : Nat)
    (buff : GoString) : ∀ m ∈ (statsLoop ParseFloat fuel buff).sent, m.desc ≠ .up := by
  induction fuel generalizing buff with
  | zero => simp [statsLoop]
  | succ fuel ih =>
    intro m hm
    simp only [statsLoop] at hm
    split at hm
    · simp at hm
    · split at hm
      · simp at hm
      · split at hm
        · simp at hm
        · have hit := (statsIter_no_panic ParseFloat (ReadString 10 buff).1).2
          split at hm
          · exact hit m hm
          · exact hit m hm
          · simp only [List.mem_append] at hm
            rcases hm with hm | hm
            · exact hit m hm
            · exact ih _ m hm

theorem statsLoop_no_panic {F : Type} (ParseFloat : GoString → Option F) (fuel : Nat)
    (buff : GoString) : (statsLoop ParseFloat fuel buff).2 = false := by
  induction fuel generalizing buff with
  | zero => rfl
  | succ fuel ih =>
    simp only [statsLoop]
    by_cases he : (ReadString 10 buff).2.1 = true
    · simp [he]
    · have he2 : (ReadString 10 buff).2.1 = false := by simpa using he
      obtain ⟨l, -, -, h2⟩ := ReadString_ok buff he2
      have h0 : ∃ c, (ReadString 10 buff).1[0]? = some c := by
        rw [h2]
        cases l with
        | nil => exact ⟨10, by simp⟩
        | cons x t => exact ⟨x, by simp⟩
      obtain ⟨c, hc⟩ := h0
      simp only [he2, hc, Bool.false_eq_true, if_false]
      by_cases h46 : c = 46
      · simp [h46]
      · simp only [h46, if_false]
        have hit := (statsIter_no_panic ParseFloat (ReadString 10 buff).1).1
        cases hend : (statsIter ParseFloat (ReadString 10 buff).1).2 with
        | next => exact ih _
        | panicked => exact absurd hend hit
        | metricPanicked => rfl

/-- Whenever the connection opens, the deadline is set and the request is written, but the input
holds no newline, `collect` returns the header error and has sent nothing on the channel. -/
theorem collect_header_failure {F : Type} [OfNat F 0] [OfNat F 1]
    (ParseFloat : GoString → Option F) (c : Conn) (hd : c.dialErr = none)
    (hdl : c.deadlineErr = none) (hw : c.writeErr = none) (hin : 10 ∉ c.input) :
    collect ParseFloat c =
      ([], .returned
        (some (ascii "Error reading header from control socket: " ++ c.inputErr))) := by
  simp [collect, hd, hdl, hw, ReadString_of_not_mem c.input hin]

/-- Whenever the header line is read, `collect` sends `up` with value 1 first, and every metric
after it comes from the loop, none of them on the descriptor `up`. -/
theorem collect_header_read {F : Type} [OfNat F 0] [OfNat F 1]
    (ParseFloat : GoString → Option F) (c : Conn) (hd : c.dialErr = none)
    (hdl : c.deadlineErr = none) (hw : c.writeErr = none)
    (hin : (ReadString 10 c.input).2.1 = false) :
    ∃ ms : List (Metric F), (collect ParseFloat c).1 = ⟨.up, .GaugeValue, 1, []⟩ :: ms ∧
      ∀ m ∈ ms, m.desc ≠ .up := by
  refine ⟨(statsLoop ParseFloat ((ReadString 10 c.input).2.2.length + 1)
    (ReadString 10 c.input).2.2).sent, by simp [collect, hd, hdl, hw, hin], ?_⟩
  exact statsLoop_no_up ParseFloat _ _

/-- C5, where the code departs from it: when the connection opens and the request is written but
the header line cannot be read (here: the peer closes without sending anything), `collect`
returns the header error and has sent nothing at all on the channel, so no `up` sample with
value 0; the two sibling failures (connecting, writing) do send `up` with value 0. -/
theorem C5_header_failure_sends_no_up :
    collect parseDigits ⟨none, none, none, [], ascii "EOF"⟩ =
      ([], .returned (some (ascii "Error reading header from control socket: EOF"))) ∧
    collect parseDigits ⟨some (ascii "refused"), none, none, [], ascii "EOF"⟩ =
      ([⟨.up, .GaugeValue, 0, []⟩],
        .returned (some (ascii "Error connecting to syslog-ng: refused"))) ∧
    collect parseDigits ⟨none, none, some (ascii "broken pipe"), [], ascii "EOF"⟩ =
      ([⟨.up, .GaugeValue, 0, []⟩],
        .returned (some (ascii "Error writing to control socket: broken pipe"))) := by
  decide

/-- C10: `collect` never panics on an index or slice expression (the outcome `panicked`; a panic
of `prometheus.MustNewConstMetric` is the separate outcome `metricPanicked`), and its loop gives
the same result, without such a panic, for every iteration bound above the length of the input.
A line read with no error is not empty (it ends in a newline), so `line[0]` is defined; a record
that `parseStatLine` returns has an object type of at least 4 bytes, so `objectType[0:4]` is
defined; and a line that `parseStatLine` rejects ends the iteration with no call made and
nothing sent, before the slice. -/
theorem C10_stats_loop_never_panics {F : Type} [OfNat F 0] [OfNat F 1]
    (ParseFloat : GoString → Option F) :
    (∀ c : Conn, (collect ParseFloat c).2 ≠ .panicked) ∧
    (∀ (buff : GoString) (fuel : Nat), buff.length < fuel →
      statsLoop ParseFloat fuel buff = statsLoop ParseFloat (buff.length + 1) buff ∧
        (statsLoop ParseFloat fuel buff).2 = false) ∧
    (∀ buff : GoString, (ReadString 10 buff).2.1 = false →
      (ReadString 10 buff).1.getLast? = some 10 ∧ ∃ b, (ReadString 10 buff).1[0]? = some b) ∧
    (∀ (ln : GoString) (stat : Stat F), parseStatLine ParseFloat ln = .ok stat →
      4 ≤ stat.objectType.length ∧
        slice stat.objectType 0 4 = some (stat.objectType.take 4)) ∧
    (∀ (ln : GoString) (e : ParseError), parseStatLine ParseFloat ln = .error e →
      statsBody ParseFloat ln = some []) := by
  refine ⟨?_, ?_, ?_, ?_, ?_⟩
  · intro c
    unfold collect
    cases c.dialErr with
    | some e => simp
    | none =>
      cases c.deadlineErr with
      | some e => simp
      | none =>
        cases c.writeErr with
        | some e => simp
        | none =>
          simp only
          split
          · simp
          · simp only [statsLoop_no_panic, Bool.false_eq_true, if_false]
            split_ifs <;> simp
  · intro buff fuel hf
    exact ⟨statsLoop_fuel ParseFloat fuel (buff.length + 1) buff hf (by omega),
      statsLoop_no_panic ParseFloat fuel buff⟩
  · intro buff h
    obtain ⟨l, -, -, h2⟩ := ReadString_ok buff h
    rw [h2]
    refine ⟨by simp, ?_⟩
    cases l with
    | nil => exact ⟨10, by simp⟩
    | cons x t => exact ⟨x, by simp⟩
  · intro ln stat h
    have h4 := parseStatLine_ok_length ParseFloat ln stat h
    exact ⟨h4, slice_four _ h4⟩
  · intro ln e h
    simp [statsBody, h]

/-- C10 on a session whose input holds a blank line, a short line and a line with a short
object type. -/
theorem C10_stats_loop_never_panics_witness :
    (collect parseDigits
      ⟨none, none, none, ascii "header\n\na;b\nsrc;s;;a;processed;1\n.\n", ascii "EOF"⟩).2 ≠
      .panicked :=
  (C10_stats_loop_never_panics parseDigits).1 _

/-! ## Lemmas on UTF-8 decoding and `TrimSpace` -/

theorem DecodeRuneInString_ascii (c : Nat) (t : GoString) (h : c < 0x80) :
    DecodeRuneInString (c :: t) = (c, 1) := by
  simp [DecodeRuneInString, h]

theorem isCont_of_lt (b : Nat) (hb : b < 0x80) : isCont b = false := by
  simp only [isCont, Bool.and_eq_false_imp, decide_eq_true_eq, decide_eq_false_iff_not]
  omega

theorem DecodeRuneInString_append (u : GoString) (b : Nat) (y : GoString) (hu : u ≠ [])
    (hb : b < 0x80) : DecodeRuneInString (u ++ b :: y) = DecodeRuneInString u := by
  have hc : isCont b = false := isCont_of_lt b hb
  have g1 : ∀ lo : Nat, 0x80 ≤ lo → decide (lo ≤ b) = false := by
    intro lo hlo
    simp only [decide_eq_false_iff_not]
    omega
  have k1 := g1 0x80 (by decide)
  have k2 := g1 0x90 (by decide)
  have k3 := g1 0xA0 (by decide)
  simp only [Nat.reduceLeDiff] at k1 k2 k3
  rcases u with _ | ⟨a0, _ | ⟨a1, _ | ⟨a2, _ | ⟨a3, t⟩⟩⟩⟩
  · exact absurd rfl hu
  · rcases y with _ | ⟨y0, _ | ⟨y1, y2⟩⟩ <;>
      simp only [DecodeRuneInString, List.cons_append, List.nil_append, hc, k1, k2, k3,
        Bool.and_false, Bool.false_and, Bool.false_eq_true, if_false] <;>
      split_ifs <;> first
        | rfl
        | (rename_i hh
           simp only [k1, k2, k3, hc, Bool.false_and, Bool.and_false, Bool.false_eq_true] at hh)
  · rcases y with _ | ⟨y0, y1⟩ <;>
      simp only [DecodeRuneInString, List.cons_append, List.nil_append, hc, k1, k2, k3,
        Bool.and_false, Bool.false_and, Bool.false_eq_true, if_false]
  · simp only [DecodeRuneInString, List.cons_append, List.nil_append, hc, k1, k2, k3,
        Bool.and_false, Bool.false_and, Bool.false_eq_true, if_false]
  · simp only [DecodeRuneInString, List.cons_append]

theorem DecodeRuneInString_size (s : GoString) (hs : s ≠ []) :
    1 ≤ (DecodeRuneInString s).2 ∧ (DecodeRuneInString s).2 ≤ 4 ∧
      (DecodeRuneInString s).2 ≤ s.length := by
  rcases s with _ | ⟨a0, _ | ⟨a1, _ | ⟨a2, _ | ⟨a3, t⟩⟩⟩⟩
  · exact absurd rfl hs
  all_goals
    simp only [DecodeRuneInString, List.length_cons, List.length_nil]
    split_ifs <;> simp

theorem DecodeRuneInString_single (c : Nat) : (DecodeRuneInString [c]).2 = 1 := by
  have := DecodeRuneInString_size [c] (by simp)
  simp only [List.length_singleton] at this
  omega

/-- A decoded width above one means a lead byte. -/
theorem DecodeRuneInString_lead (c : Nat) (t : GoString)
    (h : (DecodeRuneInString (c :: t)).2 ≠ 1) : 0x80 ≤ c := by
  by_contra hc
  rw [DecodeRuneInString_ascii c t (by omega)] at h
  exact h rfl

theorem scanStart_le (s : GoString) (lim : Int) (k : Nat) (st : Int) :
    scanStart s lim k st ≤ st := by
  induction k generalizing st with
  | zero => simp [scanStart]
  | succ k ih =>
    simp only [scanStart]
    split_ifs
    · exact le_refl _
    · exact le_refl _
    · have := ih (st - 1)
      omega

theorem drop_length_pred (s : GoString) (hs : s ≠ []) :
    s.drop (s.length - 1) = [s.getD (s.length - 1) 0] := by
  induction s with
  | nil => exact absurd rfl hs
  | cons a t ih =>
    cases t with
    | nil => simp
    | cons b t2 =>
      have := ih (by simp)
      simp only [List.length_cons, Nat.add_sub_cancel] at this ⊢
      rw [List.drop_succ_cons, List.getD_cons_succ]
      exact this

theorem drop_eq_getD_cons (s : GoString) (i : Nat) (h : i < s.length) :
    s.drop i = s.getD i 0 :: s.drop (i + 1) := by
  rw [List.getD_eq_getElem _ _ h]
  exact List.drop_eq_getElem_cons h

theorem DecodeLastRuneInString_eq (s : GoString) :
    DecodeLastRuneInString s =
      if s.length = 0 then (RuneError, 0)
      else if s.getD (s.length - 1) 0 < RuneSelf then (s.getD (s.length - 1) 0, 1)
      else if lastStart s + (DecodeRuneInString (s.drop (lastStart s))).2 ≠ s.length then
        (RuneError, 1)
      else DecodeRuneInString (s.drop (lastStart s)) := by
  rfl

theorem lastStart_lt (s : GoString) (hs : s ≠ []) : lastStart s < s.length := by
  have hn : 1 ≤ s.length := by
    cases s with
    | nil => exact absurd rfl hs
    | cons a t => simp
  have := scanStart_le s (if (s.length : Int) - 4 < 0 then 0 else (s.length : Int) - 4) 4
    ((s.length : Int) - 2)
  unfold lastStart
  generalize scanStart s (if (s.length : Int) - 4 < 0 then 0 else (s.length : Int) - 4) 4
    ((s.length : Int) - 2) = v at this ⊢
  split_ifs <;> omega

/-- What `DecodeLastRuneInString` returns on a non-empty string: a width `size` between 1 and the
length such that the rune decoded at `len - size` has that width when the byte there is not
ASCII, and `size = 1` when it is. -/
theorem DecodeLastRuneInString_spec (s : GoString) (hs : s ≠ []) :
    1 ≤ (DecodeLastRuneInString s).2 ∧ (DecodeLastRuneInString s).2 ≤ s.length ∧
    (RuneSelf ≤ s.getD (s.length - (DecodeLastRuneInString s).2) 0 →
      (DecodeRuneInString (s.drop (s.length - (DecodeLastRuneInString s).2))).2 =
        (DecodeLastRuneInString s).2) ∧
    (s.getD (s.length - (DecodeLastRuneInString s).2) 0 < RuneSelf →
      (DecodeLastRuneInString s).2 = 1) := by
  have hn : 1 ≤ s.length := by
    cases s with
    | nil => exact absurd rfl hs
    | cons a t => simp
  have hsingle : (DecodeRuneInString (s.drop (s.length - 1))).2 = 1 := by
    rw [drop_length_pred s hs]
    exact DecodeRuneInString_single _
  rw [DecodeLastRuneInString_eq, if_neg (by omega)]
  split_ifs with h1 h2
  · exact ⟨le_refl _, hn, fun h => absurd h1 (by simp only at h; omega), fun _ => rfl⟩
  · exact ⟨le_refl _, hn, fun _ => hsingle, fun _ => rfl⟩
  · simp only [ne_eq, not_not] at h2
    have hlt := lastStart_lt s hs
    have hne : s.drop (lastStart s) ≠ [] := by
      simp only [ne_eq, List.drop_eq_nil_iff, not_le]
      exact hlt
    have hsz := DecodeRuneInString_size _ hne
    have hidx : s.length - (DecodeRuneInString (s.drop (lastStart s))).2 = lastStart s := by
      omega
    refine ⟨hsz.1, by omega, ?_, ?_⟩
    · intro _
      rw [hidx]
    · rw [hidx]
      intro hlt2
      rw [drop_eq_getD_cons s _ hlt, DecodeRuneInString_ascii _ _ hlt2]

theorem DecodeLastRuneInString_append_ascii (s : GoString) (c : Nat) (hc : c < 0x80) :
    DecodeLastRuneInString (s ++ [c]) = (c, 1) := by
  rw [DecodeLastRuneInString_eq]
  simp only [List.length_append, List.length_singleton, Nat.add_sub_cancel]
  rw [if_neg (by omega)]
  have : (s ++ [c]).getD s.length 0 = c := by
    rw [List.getD_append_right _ _ _ _ (le_refl _)]
    simp
  have hc2 : c < RuneSelf := hc
  rw [this, if_pos hc2]

theorem IsSpace_ascii (c : Nat) (h : c < 0x80) : IsSpace c = asciiSpace c := by
  rw [Bool.eq_iff_iff]
  simp only [IsSpace, asciiSpace, Bool.or_eq_true, decide_eq_true_eq]
  omega

/-- The tail of `TrimRightFunc` once the index of the last rune to keep is known. -/
theorem TrimRightFunc_cut (s y : GoString) (hs : s ≠ [])
    (hy : y = [] ∨ ∃ b t, y = b :: t ∧ b < 0x80) :
    (if RuneSelf ≤ (s ++ y).getD (s.length - (DecodeLastRuneInString s).2) 0 then
      (s ++ y).take (s.length - (DecodeLastRuneInString s).2 +
        (DecodeRuneInString ((s ++ y).drop (s.length - (DecodeLastRuneInString s).2))).2)
    else (s ++ y).take (s.length - (DecodeLastRuneInString s).2 + 1)) = s := by
  obtain ⟨h1, h2, h3, h4⟩ := DecodeLastRuneInString_spec s hs
  have hi : s.length - (DecodeLastRuneInString s).2 < s.length := by omega
  have hget : (s ++ y).getD (s.length - (DecodeLastRuneInString s).2) 0 =
      s.getD (s.length - (DecodeLastRuneInString s).2) 0 := by
    rw [List.getD_eq_getElem _ _ (by simp; omega), List.getD_eq_getElem _ _ hi]
    exact List.getElem_append_left hi
  have hdrop : (s ++ y).drop (s.length - (DecodeLastRuneInString s).2) =
      s.drop (s.length - (DecodeLastRuneInString s).2) ++ y := by
    rw [List.drop_append_of_le_length (by omega)]
  have hne : s.drop (s.length - (DecodeLastRuneInString s).2) ≠ [] := by
    simp only [ne_eq, List.drop_eq_nil_iff, not_le]
    exact hi
  have hdec : (DecodeRuneInString ((s ++ y).drop (s.length - (DecodeLastRuneInString s).2))).2 =
      (DecodeRuneInString (s.drop (s.length - (DecodeLastRuneInString s).2))).2 := by
    rw [hdrop]
    rcases hy with rfl | ⟨b, t, rfl, hb⟩
    · simp
    · rw [DecodeRuneInString_append _ b t hne hb]
  rw [hget, hdec]
  split_ifs with h
  · rw [h3 h]
    have : s.length - (DecodeLastRuneInString s).2 + (DecodeLastRuneInString s).2 = s.length := by
      omega
    rw [this]
    simp
  · rw [h4 (by omega)]
    have : s.length - 1 + 1 = s.length := by omega
    rw [this]
    simp

theorem TrimRightFunc_self (s : GoString) (hs : s ≠ [])
    (hl : IsSpace (DecodeLastRuneInString s).1 = false) : TrimRightFunc s IsSpace = s := by
  obtain ⟨n, hn⟩ : ∃ n, s.length = n + 1 := by
    cases s with
    | nil => exact absurd rfl hs
    | cons a t => exact ⟨t.length, rfl⟩
  have hidx : lastIndexFunc IsSpace s s.length s.length =
      some (s.length - (DecodeLastRuneInString s).2) := by
    rw [hn]
    simp only [lastIndexFunc, Nat.zero_lt_succ, if_true]
    rw [← hn, List.take_length, hl]
    simp
  unfold TrimRightFunc
  rw [hidx]
  simpa using TrimRightFunc_cut s [] hs (Or.inl rfl)

theorem TrimRightFunc_newline (s : GoString) (hs : s ≠ [])
    (hl : IsSpace (DecodeLastRuneInString s).1 = false) :
    TrimRightFunc (s ++ [10]) IsSpace = s := by
  obtain ⟨n, hn⟩ : ∃ n, s.length = n + 1 := by
    cases s with
    | nil => exact absurd rfl hs
    | cons a t => exact ⟨t.length, rfl⟩
  have hidx : lastIndexFunc IsSpace (s ++ [10]) (s ++ [10]).length (s ++ [10]).length =
      some (s.length - (DecodeLastRuneInString s).2) := by
    have h10 : IsSpace 10 = true := by decide
    have e1 : (s ++ [10]).length = n + 1 + 1 := by simp [hn]
    rw [e1]
    simp only [lastIndexFunc, Nat.zero_lt_succ, if_true]
    rw [← e1, List.take_length, DecodeLastRuneInString_append_ascii s 10 (by decide)]
    simp only [h10, Bool.true_eq_false, if_false]
    have e2 : (s ++ [10]).length - 1 = s.length := by simp
    rw [e2, List.take_left' rfl, hl]
    simp [hs]
  unfold TrimRightFunc
  rw [hidx]
  exact TrimRightFunc_cut s [10] hs (Or.inr ⟨10, [], rfl, by decide⟩)

/-- A line made of a non-empty text that neither begins nor ends with a white-space rune, and a
newline, is trimmed to that text. -/
theorem TrimSpace_line (s : GoString) (hs : s ≠ [])
    (hf : IsSpace (DecodeRuneInString s).1 = false)
    (hl : IsSpace (DecodeLastRuneInString s).1 = false) : TrimSpace (s ++ [10]) = s := by
  obtain ⟨c, t, rfl⟩ : ∃ c t, s = c :: t := List.exists_cons_of_ne_nil hs
  unfold TrimSpace
  rw [List.cons_append, trimStart]
  by_cases hc : RuneSelf ≤ c
  · rw [if_pos hc]
    unfold TrimFunc
    have hleft : TrimLeftFunc (c :: (t ++ [10])) IsSpace = c :: (t ++ [10]) := by
      unfold TrimLeftFunc
      have hd : DecodeRuneInString (c :: (t ++ [10])) = DecodeRuneInString (c :: t) := by
        have := DecodeRuneInString_append (c :: t) 10 [] (by simp) (by decide)
        simpa using this
      simp only [List.length_cons, indexFunc, hd, hf, if_true]
      simp
    rw [hleft]
    exact TrimRightFunc_newline (c :: t) hs hl
  · have hc2 : c < 0x80 := by
      unfold RuneSelf at hc
      omega
    rw [if_neg hc]
    rw [DecodeRuneInString_ascii c t hc2, IsSpace_ascii c hc2] at hf
    rw [hf]
    simp only [Bool.false_eq_true, if_false]
    have hrev : (c :: (t ++ [10])).reverse = 10 :: (c :: t).reverse := by simp
    rw [hrev, trimStop]
    have h10 : asciiSpace 10 = true := by decide
    rw [if_neg (by decide), h10, if_pos rfl]
    obtain ⟨d, r, hr⟩ : ∃ d r, (c :: t).reverse = d :: r :=
      List.exists_cons_of_ne_nil (by simp)
    have hsr : (d :: r).reverse = c :: t := by rw [← hr, List.reverse_reverse]
    rw [hr, trimStop]
    by_cases hd : RuneSelf ≤ d
    · rw [if_pos hd, hsr]
      exact TrimRightFunc_self (c :: t) hs hl
    · rw [if_neg hd]
      have hd2 : d < 0x80 := by
        unfold RuneSelf at hd
        omega
      have hlast : DecodeLastRuneInString (c :: t) = (d, 1) := by
        have : c :: t = r.reverse ++ [d] := by rw [← hsr]; simp
        rw [this]
        exact DecodeLastRuneInString_append_ascii _ d hd2
      rw [hlast, IsSpace_ascii d hd2] at hl
      rw [hl, hsr]
      simp

theorem getD_append_cons_add (x u : GoString) (b : Nat) (j : Nat) :
    (x ++ b :: u).getD (j + (x.length + 1)) 0 = u.getD j 0 := by
  rw [List.getD_append_right _ _ _ _ (by omega)]
  have : j + (x.length + 1) - x.length = j + 1 := by omega
  rw [this, List.getD_cons_succ]

theorem scanStart_shift (x u : GoString) (b : Nat) (hb : RuneStart b = true) (k : Nat)
    (st limu lims : Int) (hst : -1 ≤ st) (hlu : 0 ≤ limu)
    (hl : lims = limu + (x.length + 1) ∨ (limu = 0 ∧ lims ≤ x.length + 1)) :
    scanStart (x ++ b :: u) lims k (st + (x.length + 1)) =
      scanStart u limu k st + (x.length + 1) := by
  induction k generalizing st with
  | zero => simp [scanStart]
  | succ k ih =>
    simp only [scanStart]
    by_cases h1 : st < limu
    · rw [if_pos h1]
      by_cases h2 : st + ((x.length : Int) + 1) < lims
      · rw [if_pos h2]
      · rw [if_neg h2]
        have hst2 : st = -1 := by omega
        have hidx : (st + ((x.length : Int) + 1)).toNat = x.length := by omega
        have hget : (x ++ b :: u).getD x.length 0 = b := by
          rw [List.getD_append_right _ _ _ _ (le_refl _)]
          simp
        rw [hidx, hget, hb, if_pos rfl]
    · rw [if_neg h1, if_neg (by omega)]
      have hidx : (st + ((x.length : Int) + 1)).toNat = st.toNat + (x.length + 1) := by omega
      rw [hidx, getD_append_cons_add]
      by_cases h3 : RuneStart (u.getD st.toNat 0) = true
      · rw [if_pos h3, if_pos h3]
      · rw [if_neg h3, if_neg h3]
        have e : st + ((x.length : Int) + 1) - 1 = (st - 1) + ((x.length : Int) + 1) := by ring
        rw [e]
        exact ih (st - 1) (by omega)

theorem scanStart_ge (s : GoString) (lim : Int) (k : Nat) (st : Int) (hst : -1 ≤ st)
    (hl : 0 ≤ lim) : -1 ≤ scanStart s lim k st := by
  induction k generalizing st with
  | zero => simpa [scanStart] using hst
  | succ k ih =>
    simp only [scanStart]
    split_ifs
    · exact hst
    · exact hst
    · exact ih (st - 1) (by omega)

/-- A scan that ends below the limit has met no rune start. -/
theorem scanStart_none (s : GoString) (lim : Int) (k : Nat) (st : Int)
    (h : scanStart s lim k st < lim) (hk : st - lim < k) (j : Int) (hj1 : lim ≤ j)
    (hj2 : j ≤ st) : RuneStart (s.getD j.toNat 0) = false := by
  induction k generalizing st with
  | zero => omega
  | succ k ih =>
    simp only [scanStart] at h
    rw [if_neg (by omega)] at h
    by_cases h3 : RuneStart (s.getD st.toNat 0) = true
    · rw [if_pos h3] at h
      omega
    · rw [if_neg h3] at h
      by_cases hjs : j = st
      · rw [hjs]
        simpa using h3
      · exact ih (st - 1) h (by push_cast at hk ⊢; omega) (by omega)

theorem DecodeRuneInString_cont (c : Nat) (t : GoString) (h : RuneStart c = false) :
    DecodeRuneInString (c :: t) = (RuneError, 1) := by
  simp only [RuneStart, isCont, Bool.not_eq_false', Bool.and_eq_true, decide_eq_true_eq] at h
  simp only [DecodeRuneInString]
  rw [if_neg (by omega), if_pos (by omega)]

theorem DecodeRuneInString_single_high (c : Nat) (h : 0x80 ≤ c) :
    DecodeRuneInString [c] = (RuneError, 1) := by
  simp only [DecodeRuneInString]
  split_ifs <;> first | rfl | (exfalso; omega)

/-- The last rune of a string depends only on what follows its last ASCII byte, when something
does. -/
theorem DecodeLastRuneInString_append (x u : GoString) (b : Nat) (hb : b < 0x80)
    (hu : u ≠ []) : DecodeLastRuneInString (x ++ b :: u) = DecodeLastRuneInString u := by
  have hrs : RuneStart b = true := by simp [RuneStart, isCont_of_lt b hb]
  have hm : 1 ≤ u.length := by
    cases u with
    | nil => exact absurd rfl hu
    | cons a t => simp
  have hlen : (x ++ b :: u).length = u.length + (x.length + 1) := by
    simp only [List.length_append, List.length_cons]
    omega
  have hlast : (x ++ b :: u).getD ((x ++ b :: u).length - 1) 0 = u.getD (u.length - 1) 0 := by
    have : (x ++ b :: u).length - 1 = (u.length - 1) + (x.length + 1) := by omega
    rw [this, getD_append_cons_add]
  have hL : DecodeLastRuneInString (x ++ b :: u) =
      if u.getD (u.length - 1) 0 < RuneSelf then (u.getD (u.length - 1) 0, 1)
      else if lastStart (x ++ b :: u) +
          (DecodeRuneInString ((x ++ b :: u).drop (lastStart (x ++ b :: u)))).2 ≠
            (x ++ b :: u).length then (RuneError, 1)
      else DecodeRuneInString ((x ++ b :: u).drop (lastStart (x ++ b :: u))) := by
    rw [DecodeLastRuneInString_eq, hlast, if_neg (by rw [hlen]; omega)]
  have hR : DecodeLastRuneInString u =
      if u.getD (u.length - 1) 0 < RuneSelf then (u.getD (u.length - 1) 0, 1)
      else if lastStart u + (DecodeRuneInString (u.drop (lastStart u))).2 ≠ u.length then
        (RuneError, 1)
      else DecodeRuneInString (u.drop (lastStart u)) := by
    rw [DecodeLastRuneInString_eq, if_neg (by omega)]
  rw [hL, hR]
  by_cases h1 : u.getD (u.length - 1) 0 < RuneSelf
  · rw [if_pos h1, if_pos h1]
  · rw [if_neg h1, if_neg h1]
    have hscan := scanStart_shift x u b hrs 4 ((u.length : Int) - 2)
      (if (u.length : Int) - 4 < 0 then 0 else (u.length : Int) - 4)
      (if ((x ++ b :: u).length : Int) - 4 < 0 then 0 else ((x ++ b :: u).length : Int) - 4)
      (by omega) (by split_ifs <;> omega)
      (by rw [hlen]; push_cast; split_ifs <;> omega)
    have e2 : ((x ++ b :: u).length : Int) - 2 =
        ((u.length : Int) - 2) + ((x.length : Int) + 1) := by
      rw [hlen]; push_cast; ring
    have hge := scanStart_ge u (if (u.length : Int) - 4 < 0 then 0 else (u.length : Int) - 4) 4
      ((u.length : Int) - 2) (by omega) (by split_ifs <;> omega)
    by_cases h0 : scanStart u (if (u.length : Int) - 4 < 0 then 0 else (u.length : Int) - 4) 4
        ((u.length : Int) - 2) < 0
    · -- nothing found in `u`: both sides are the error rune
      have hsu : lastStart u = 0 := by
        unfold lastStart
        rw [if_pos h0]
      have hss : lastStart (x ++ b :: u) = x.length := by
        unfold lastStart
        rw [e2, hscan]
        generalize scanStart u (if (u.length : Int) - 4 < 0 then 0 else (u.length : Int) - 4) 4
          ((u.length : Int) - 2) = vu at h0 hge ⊢
        split_ifs <;> omega
      have hdrop : (x ++ b :: u).drop x.length = b :: u := by
        rw [List.drop_left']
        rfl
      rw [hss, hsu, hdrop, DecodeRuneInString_ascii b u hb, List.drop_zero]
      rw [if_pos (by rw [hlen]; simp only [ne_eq]; omega)]
      have hdu : DecodeRuneInString u = (RuneError, 1) := by
        by_cases hm1 : u.length = 1
        · obtain ⟨c, rfl⟩ : ∃ c, u = [c] := List.length_eq_one.mp hm1
          simp only [List.length_singleton, Nat.sub_self, List.getD_cons_zero] at h1
          exact DecodeRuneInString_single_high c (by unfold RuneSelf at h1; omega)
        · obtain ⟨c, t, rfl⟩ : ∃ c t, u = c :: t := List.exists_cons_of_ne_nil hu
          have hlim : (if ((c :: t).length : Int) - 4 < 0 then (0 : Int)
              else ((c :: t).length : Int) - 4) = 0 := by
            split_ifs with h4
            · rfl
            · rw [if_neg h4] at hge h0
              have hlb : ((c :: t).length : Int) - 5 ≤ scanStart (c :: t)
                  (((c :: t).length : Int) - 4) 4 (((c :: t).length : Int) - 2) := by
                simp only [scanStart]
                split_ifs <;> omega
              omega
          rw [hlim] at h0
          have := scanStart_none (c :: t) 0 4 (((c :: t).length : Int) - 2) h0
            (by
              have : ((c :: t).length : Int) - 4 ≤ 0 := by
                by_contra hc
                rw [if_neg (by omega)] at hlim
                omega
              omega) 0 (le_refl _) (by simp only [List.length_cons] at hm1 ⊢; omega)
          exact DecodeRuneInString_cont c t (by simpa using this)
      rw [hdu]
      simp
    · have hsu : lastStart u = (scanStart u
          (if (u.length : Int) - 4 < 0 then 0 else (u.length : Int) - 4) 4
          ((u.length : Int) - 2)).toNat := by
        unfold lastStart
        rw [if_neg h0]
      have hss : lastStart (x ++ b :: u) = lastStart u + (x.length + 1) := by
        rw [hsu]
        unfold lastStart
        rw [e2, hscan]
        generalize scanStart u (if (u.length : Int) - 4 < 0 then 0 else (u.length : Int) - 4) 4
          ((u.length : Int) - 2) = vu at h0 hge ⊢
        split_ifs <;> omega
      have hdrop : (x ++ b :: u).drop (lastStart u + (x.length + 1)) = u.drop (lastStart u) := by
        have : lastStart u + (x.length + 1) = x.length + (lastStart u + 1) := by omega
        rw [this, List.drop_append]
        rfl
      rw [hss, hdrop, hlen]
      by_cases h5 : lastStart u + (DecodeRuneInString (u.drop (lastStart u))).2 ≠ u.length
      · rw [if_pos h5, if_pos (by omega)]
      · rw [if_neg h5, if_neg (by omega)]

/-! ## `processCommand`: the claims -/

theorem Index_isSome_iff (s substr : GoString) : (Index s substr).isSome ↔ substr <:+: s := by
  induction s with
  | nil =>
    simp only [Index, List.infix_nil]
    split <;> simp [*]
  | cons c t ih =>
    rw [List.infix_cons_iff, ← ih, Index]
    by_cases hp : substr.isPrefixOf (c :: t) = true
    · simp only [hp, if_true, Option.isSome_some, true_iff]
      exact Or.inl (List.isPrefixOf_iff_prefix.mp hp)
    · simp only [hp, Bool.false_eq_true, if_false, Option.isSome_map']
      constructor
      · exact Or.inr
      · rintro (h | h)
        · exact absurd (List.isPrefixOf_iff_prefix.mpr h) hp
        · exact h

theorem Contains_iff (s substr : GoString) : Contains s substr = true ↔ substr <:+: s :=
  Index_isSome_iff s substr

/-- C6: in a RELOAD session whose response is one line followed by the end of the output, the
payload has that whole line (with its newline) as message; when the line contains
`OK Config reload successful` the status is `success` and there are no error messages; otherwise
the status is `failed` and the error messages are the one string `failed to reload`. -/
theorem C6_reload_result (c : Conn) (ln tail : GoString) (hd : c.dialErr = none)
    (hdl : c.deadlineErr = none) (hw : c.writeErr = none) (hin : c.input = ln ++ tail)
    (hl : IsLine ln) (ht : EndsOutput tail) :
    processCommand c (ascii "RELOAD") = .json
      (if ascii "OK Config reload successful" <:+: ln then
        ⟨some ln, ascii "success", none, some []⟩
      else ⟨some ln, ascii "failed", some [ascii "failed to reload"], some []⟩) := by
  have hin2 : c.input = [ln].flatten ++ tail := by simpa using hin
  rw [processCommand_lines c _ [ln] tail hd hdl hw hin2 (by simpa using hl) ht]
  simp only [cmdFold, cmdBody, if_true]
  by_cases hc : ascii "OK Config reload successful" <:+: ln
  · have hc2 := (Contains_iff _ _).mpr hc
    simp [hc, hc2, finish]
  · have hc2 : Contains ln (ascii "OK Config reload successful") = false := by
      rw [← Bool.not_eq_true, Contains_iff]
      exact hc
    simp [hc, hc2, finish]

/-- C6 on the response `OK Config reload successful`, then `.`: status `success`, the line as
message, no error messages. -/
theorem C6_reload_result_witness :
    processCommand ⟨none, none, none, ascii "OK Config reload successful\n.\n", ascii "EOF"⟩
      (ascii "RELOAD") = .json
        ⟨some (ascii "OK Config reload successful\n"), ascii "success", none, some []⟩ :=
  (C6_reload_result ⟨none, none, none, ascii "OK Config reload successful\n.\n", ascii "EOF"⟩
    (ascii "OK Config reload successful\n") (ascii ".\n") rfl rfl rfl (by decide)
    ⟨ascii "OK Config reload successful", by decide, by decide, by decide⟩
    (Or.inr (by decide))).trans (by decide)

theorem cmdFold_append (command : GoString) (pre post : List GoString) (n : Nat)
    (st : CmdState) :
    cmdFold command (pre ++ post) n st =
      cmdFold command post (n + pre.length) (cmdFold command pre n st) := by
  induction pre generalizing n st with
  | nil => simp [cmdFold]
  | cons l pre ih =>
    have e : n + 1 + pre.length = n + (pre.length + 1) := by omega
    rw [List.cons_append, cmdFold, ih, List.length_cons, cmdFold, e]

/-- The `switch` only ever appends to `errors`. -/
theorem cmdBody_errors (command ln : GoString) (n : Nat) (st : CmdState) :
    st.errors <+: (cmdBody command ln n st).errors := by
  simp only [cmdBody]
  split_ifs <;> simp

theorem cmdFold_errors (command : GoString) (ls : List GoString) (n : Nat) (st : CmdState) :
    st.errors <+: (cmdFold command ls n st).errors := by
  induction ls generalizing n st with
  | nil => simp [cmdFold]
  | cons l ls ih =>
    simp only [cmdFold]
    exact (cmdBody_errors command l n st).trans (ih _ _)

theorem finish_failed (st : CmdState) (h : st.errors ≠ []) :
    finish st = ⟨st.message, ascii "failed", some st.errors, some st.payloadData⟩ := by
  have : st.errors.length ≠ 0 := by simpa using h
  simp [finish, this]

/-- C8 as stated fails: the first line `FAIL a b` has three tokens, the first of them not `OK`;
the session appends the raw line alone to the error messages, not a formatted diagnostic, and the
entry does not hold the line index `0`. -/
theorem C8_counterexample :
    (SplitN (TrimSpace (ascii "FAIL a b\n")) 32 3).length = 3 ∧
    (SplitN (TrimSpace (ascii "FAIL a b\n")) 32 3).getD 0 [] ≠ ascii "OK" ∧
    processCommand ⟨none, none, none, ascii "FAIL a b\n.\n", ascii "EOF"⟩
      (ascii "HEALTHCHECK") =
        .json ⟨none, ascii "failed", some [ascii "FAIL a b\n"], some []⟩ ∧
    ¬ (Itoa 0 <:+: ascii "FAIL a b\n") := by
  decide

/-- C8, amended: in a HEALTHCHECK session whose lines are `ls`, let `ln` be line number `i`
(from 0) and let it be a first line with three tokens whose token 0 is not `OK`, or a
three-token line at index 1 or later, or a one-token line.  Then the `switch` appends exactly
one entry to the error messages and leaves the data and the message alone: the raw line for the
first-line case, and otherwise the text `error: invalid/unexpected results, line: `, the index
in decimal, `: ` and the raw line.  The final status is `failed` and the entry is among the
final error messages. -/
theorem C8_unexpected_line (c : Conn) (ls : List GoString) (tail : GoString) (i : Nat)
    (ln : GoString) (hd : c.dialErr = none) (hdl : c.deadlineErr = none)
    (hw : c.writeErr = none) (hin : c.input = ls.flatten ++ tail)
    (hls : ∀ l ∈ ls, IsLine l) (ht : EndsOutput tail) (hi : ls[i]? = some ln)
    (hshape : (i = 0 ∧ (SplitN (TrimSpace ln) 32 3).length = 3 ∧
          (SplitN (TrimSpace ln) 32 3).getD 0 [] ≠ ascii "OK") ∨
        (1 ≤ i ∧ (SplitN (TrimSpace ln) 32 3).length = 3) ∨
        (SplitN (TrimSpace ln) 32 3).length = 1) :
    (∀ st : CmdState, cmdBody (ascii "HEALTHCHECK") ln i st =
      { st with errors := st.errors ++
          [if i = 0 ∧ (SplitN (TrimSpace ln) 32 3).length = 3 then ln
            else ascii "error: invalid/unexpected results, line: " ++ Itoa i ++ ascii ": " ++
              ln] }) ∧
    ∃ msg errs data, processCommand c (ascii "HEALTHCHECK") =
        .json ⟨msg, ascii "failed", some errs, some data⟩ ∧
      (if i = 0 ∧ (SplitN (TrimSpace ln) 32 3).length = 3 then ln
        else ascii "error: invalid/unexpected results, line: " ++ Itoa i ++ ascii ": " ++ ln)
        ∈ errs := by
  have hne : ¬ ascii "HEALTHCHECK" = ascii "RELOAD" := by decide
  have hbody : ∀ st : CmdState, cmdBody (ascii "HEALTHCHECK") ln i st =
      { st with errors := st.errors ++
          [if i = 0 ∧ (SplitN (TrimSpace ln) 32 3).length = 3 then ln
            else ascii "error: invalid/unexpected results, line: " ++ Itoa i ++ ascii ": " ++
              ln] } := by
    intro st
    simp only [cmdBody, if_neg hne, if_true]
    rcases hshape with ⟨h0, h3, hok⟩ | ⟨h1, h3⟩ | h1
    · rw [if_pos ⟨h0, h3⟩, if_neg hok, if_pos ⟨h0, h3⟩]
    · have hc : ¬ (i = 0 ∧ (SplitN (TrimSpace ln) 32 3).length = 3) := by omega
      rw [if_neg hc, if_neg (by omega), if_neg hc]
    · have hc : ¬ (i = 0 ∧ (SplitN (TrimSpace ln) 32 3).length = 3) := by omega
      rw [if_neg hc, if_neg (by omega), if_neg hc]
  refine ⟨hbody, ?_⟩
  rw [processCommand_lines c _ ls tail hd hdl hw hin hls ht]
  obtain ⟨hi1, hi2⟩ := List.getElem?_eq_some_iff.mp hi
  have hsplit : ls = ls.take i ++ ln :: ls.drop (i + 1) := by
    rw [← hi2]
    simp
  have hmem : (if i = 0 ∧ (SplitN (TrimSpace ln) 32 3).length = 3 then ln
        else ascii "error: invalid/unexpected results, line: " ++ Itoa i ++ ascii ": " ++ ln)
        ∈ (cmdFold (ascii "HEALTHCHECK") ls 0 ⟨none, [], []⟩).errors := by
    rw [hsplit, cmdFold_append]
    simp only [cmdFold, Nat.zero_add, List.length_take, Nat.min_eq_left (Nat.le_of_lt hi1)]
    apply (cmdFold_errors _ _ _ _).subset
    rw [hbody]
    simp
  have hne2 : (cmdFold (ascii "HEALTHCHECK") ls 0 ⟨none, [], []⟩).errors ≠ [] :=
    List.ne_nil_of_mem hmem
  rw [finish_failed _ hne2]
  exact ⟨_, _, _, rfl, hmem⟩

/-- C8, amended, on the session `OK a b`, `c d e`, `.`: line 1 has three tokens. -/
theorem C8_unexpected_line_witness :
    ∃ msg errs data,
      processCommand ⟨none, none, none, ascii "OK a b\nc d e\n.\n", ascii "EOF"⟩
        (ascii "HEALTHCHECK") = .json ⟨msg, ascii "failed", some errs, some data⟩ ∧
      (if 1 = 0 ∧ (SplitN (TrimSpace (ascii "c d e\n")) 32 3).length = 3 then ascii "c d e\n"
        else ascii "error: invalid/unexpected results, line: " ++ Itoa 1 ++ ascii ": " ++
          ascii "c d e\n") ∈ errs :=
  (C8_unexpected_line ⟨none, none, none, ascii "OK a b\nc d e\n.\n", ascii "EOF"⟩
    [ascii "OK a b\n", ascii "c d e\n"] (ascii ".\n") 1 (ascii "c d e\n") rfl rfl rfl
    (by decide)
    (by
      intro l hl
      simp only [List.mem_cons, List.mem_singleton, List.not_mem_nil, or_false] at hl
      rcases hl with rfl | rfl
      · exact ⟨ascii "OK a b", by decide, by decide, by decide⟩
      · exact ⟨ascii "c d e", by decide, by decide, by decide⟩)
    (Or.inr (by decide)) (by decide) (Or.inr (Or.inl (by decide)))).2

/-- C9 as stated fails: the lines `a<TAB>b` and `a  b` (two spaces) are two tokens separated by
white space, yet nothing is stored and each gets a diagnostic: the split is on the single space
character, so the first line is one token and the second is three. -/
theorem C9_counterexample :
    processCommand ⟨none, none, none, ascii "OK k v\na\tb\na  b\n.\n", ascii "EOF"⟩
      (ascii "HEALTHCHECK") =
        .json ⟨some (ascii "OK"), ascii "failed",
          some [ascii "error: invalid/unexpected results, line: 1: a\tb\n",
            ascii "error: invalid/unexpected results, line: 2: a  b\n"],
          some [(ascii "k", ascii "v")]⟩ := by
  decide

/-- C7 as stated fails: in the session `OK a b`, `k v w`, `.` the second line is the key `k` and
the value `v w` (not empty, no white space at either end) separated by one space; it splits into
three tokens, so the status is `failed` and nothing is stored for `k`. -/
theorem C7_counterexample :
    processCommand ⟨none, none, none, ascii "OK a b\nk v w\n.\n", ascii "EOF"⟩
      (ascii "HEALTHCHECK") =
        .json ⟨some (ascii "OK"), ascii "failed",
          some [ascii "error: invalid/unexpected results, line: 1: k v w\n"],
          some [(ascii "a", ascii "b")]⟩ := by
  decide

/-! ## HEALTHCHECK lines of two tokens -/

theorem TrimSpace_pair (k v : GoString) (hk : k ≠ []) (hv : v ≠ [])
    (hf : IsSpace (DecodeRuneInString k).1 = false)
    (hl : IsSpace (DecodeLastRuneInString v).1 = false) :
    TrimSpace (k ++ 32 :: (v ++ [10])) = k ++ 32 :: v := by
  have e : k ++ 32 :: (v ++ [10]) = (k ++ 32 :: v) ++ [10] := by simp
  rw [e]
  apply TrimSpace_line
  · simp
  · rw [DecodeRuneInString_append k 32 v hk (by decide)]
    exact hf
  · rw [DecodeLastRuneInString_append k v 32 (by decide) hv]
    exact hl

theorem SplitN_pair (k v : GoString) (hk : 32 ∉ k) (hv : 32 ∉ v) :
    SplitN (k ++ 32 :: v) 32 3 = [k, v] := by
  rw [SplitN_eq _ _ _ (by decide)]
  simp only [Nat.reduceSub]
  rw [genSplit_append 32 1 k v hk, genSplit_of_not_mem 32 1 v hv]

theorem cmdBody_pair (k v : GoString) (lineNo : Nat) (st : CmdState) (hk : k ≠ [])
    (hv : v ≠ []) (hsk : 32 ∉ k) (hsv : 32 ∉ v)
    (hf : IsSpace (DecodeRuneInString k).1 = false)
    (hl : IsSpace (DecodeLastRuneInString v).1 = false) :
    cmdBody (ascii "HEALTHCHECK") (k ++ 32 :: (v ++ [10])) lineNo st =
      { st with payloadData := st.payloadData.set k v } := by
  have hne : ¬ ascii "HEALTHCHECK" = ascii "RELOAD" := by decide
  simp only [cmdBody, if_neg hne, if_true, TrimSpace_pair k v hk hv hf hl,
    SplitN_pair k v hsk hsv]
  simp

theorem StrMap.get_set (m : StrMap) (k v k2 : GoString) :
    (m.set k v).get k2 = if k = k2 then some v else m.get k2 := by
  unfold StrMap.set StrMap.get
  by_cases h : k = k2
  · simp [h]
  · simp only [List.find?_cons, h, decide_False, if_false]
    rw [List.find?_filter]
    congr 2
    funext e
    by_cases he : e.1 = k2
    · have : ¬ k2 = k := fun e2 => h e2.symm
      simp [he, this]
    · simp [he]

/-- C9, amended: the lines of a HEALTHCHECK response are split on the single space character.
For every line, at any line number, made of two non-empty tokens without space, the first not
beginning and the second not ending with a white-space rune, separated by exactly one space and
followed by the newline, the trimmed line splits into exactly these two tokens, and the `switch`
stores token 0 → token 1 in the data and changes neither the error messages nor the message. -/
theorem C9_two_tokens_one_space (t0 t1 : GoString) (lineNo : Nat) (st : CmdState)
    (h0 : t0 ≠ []) (h1 : t1 ≠ []) (hs0 : 32 ∉ t0) (hs1 : 32 ∉ t1)
    (hf : IsSpace (DecodeRuneInString t0).1 = false)
    (hl : IsSpace (DecodeLastRuneInString t1).1 = false) :
    SplitN (TrimSpace (t0 ++ 32 :: (t1 ++ [10]))) 32 3 = [t0, t1] ∧
    cmdBody (ascii "HEALTHCHECK") (t0 ++ 32 :: (t1 ++ [10])) lineNo st =
      { st with payloadData := st.payloadData.set t0 t1 } ∧
    (cmdBody (ascii "HEALTHCHECK") (t0 ++ 32 :: (t1 ++ [10])) lineNo st).payloadData.get t0 =
      some t1 ∧
    (cmdBody (ascii "HEALTHCHECK") (t0 ++ 32 :: (t1 ++ [10])) lineNo st).errors = st.errors := by
  have hb := cmdBody_pair t0 t1 lineNo st h0 h1 hs0 hs1 hf hl
  refine ⟨?_, hb, ?_, ?_⟩
  · rw [TrimSpace_pair t0 t1 h0 h1 hf hl, SplitN_pair t0 t1 hs0 hs1]
  · rw [hb, StrMap.get_set, if_pos rfl]
  · rw [hb]

/-- C9, amended, on the line `syslogng_internal_events_queue_usage_ratio 0` read as line 2. -/
theorem C9_two_tokens_one_space_witness :
    SplitN (TrimSpace (ascii "syslogng_internal_events_queue_usage_ratio" ++
        32 :: (ascii "0" ++ [10]))) 32 3 =
      [ascii "syslogng_internal_events_queue_usage_ratio", ascii "0"] ∧
    cmdBody (ascii "HEALTHCHECK")
        (ascii "syslogng_internal_events_queue_usage_ratio" ++ 32 :: (ascii "0" ++ [10])) 2
        ⟨some (ascii "OK"), [], []⟩ =
      { (⟨some (ascii "OK"), [], []⟩ : CmdState) with
        payloadData := StrMap.set [] (ascii "syslogng_internal_events_queue_usage_ratio")
          (ascii "0") } ∧
    (cmdBody (ascii "HEALTHCHECK")
        (ascii "syslogng_internal_events_queue_usage_ratio" ++ 32 :: (ascii "0" ++ [10])) 2
        ⟨some (ascii "OK"), [], []⟩).payloadData.get
          (ascii "syslogng_internal_events_queue_usage_ratio") = some (ascii "0") ∧
    (cmdBody (ascii "HEALTHCHECK")
        (ascii "syslogng_internal_events_queue_usage_ratio" ++ 32 :: (ascii "0" ++ [10])) 2
        ⟨some (ascii "OK"), [], []⟩).errors = [] :=
  C9_two_tokens_one_space (ascii "syslogng_internal_events_queue_usage_ratio") (ascii "0") 2
    ⟨some (ascii "OK"), [], []⟩ (by decide) (by decide) (by decide) (by decide) (by decide)
    (by decide)

theorem IsLine_pair (k v : GoString) (h : PairLine k v) : IsLine (k ++ 32 :: (v ++ [10])) := by
  obtain ⟨hk, -, -, -, hnk, hnv, -, -, h46⟩ := h
  refine ⟨k ++ 32 :: v, ?_, by simp, ?_⟩
  · simp only [List.mem_append, List.mem_cons, not_or]
    exact ⟨hnk, by decide, hnv⟩
  · obtain ⟨c, t, rfl⟩ := List.exists_cons_of_ne_nil hk
    simpa using h46

theorem cmdFold_pairs (kvs : List (GoString × GoString)) (n : Nat) (st : CmdState)
    (h : ∀ kv ∈ kvs, PairLine kv.1 kv.2) :
    cmdFold (ascii "HEALTHCHECK") (kvs.map (fun kv => kv.1 ++ 32 :: (kv.2 ++ [10]))) n st =
      { st with payloadData := kvs.foldl (fun m kv => m.set kv.1 kv.2) st.payloadData } := by
  induction kvs generalizing n st with
  | nil => simp [cmdFold]
  | cons kv kvs ih =>
    obtain ⟨hk, hv, hsk, hsv, -, -, hf, hl, -⟩ := h kv (List.mem_cons_self _ _)
    simp only [List.map_cons, cmdFold, List.foldl_cons]
    rw [cmdBody_pair kv.1 kv.2 n st hk hv hsk hsv hf hl,
      ih _ _ (fun x hx => h x (List.mem_cons_of_mem _ hx))]

theorem foldl_set_get (kvs : List (GoString × GoString)) (m : StrMap) (k : GoString) :
    (kvs.foldl (fun m kv => m.set kv.1 kv.2) m).get k =
      match lastValue kvs k with
      | some v => some v
      | none => m.get k := by
  induction kvs generalizing m with
  | nil => simp [lastValue]
  | cons kv kvs ih =>
    rw [List.foldl_cons, ih, StrMap.get_set]
    simp only [lastValue, List.reverse_cons, List.find?_append]
    cases hfind : List.find? (fun e => decide (e.1 = k)) kvs.reverse with
    | some e => simp
    | none =>
      by_cases hk : kv.1 = k
      · simp [hk]
      · simp [hk]

/-- C7, amended: in a HEALTHCHECK session whose first line is `OK`, a key and a value separated by
single spaces (the key without space, the value not empty and not ending with white space) and
whose following lines up to the end of the output are each a key and a value separated by one
space (key and value not empty and without space, the key beginning neither with white space nor
with `.`, the value not ending with white space), the payload has status `success`, message `OK`,
no error messages, and data that map every key to the value of its last line, newline removed,
and hold no other key. -/
theorem C7_healthcheck_result (c : Conn) (k0 v0 : GoString)
    (kvs : List (GoString × GoString)) (tail : GoString) (hd : c.dialErr = none)
    (hdl : c.deadlineErr = none) (hw : c.writeErr = none)
    (hin : c.input = (ascii "OK" ++ 32 :: (k0 ++ 32 :: (v0 ++ [10]))) ++
      ((kvs.map (fun kv => kv.1 ++ 32 :: (kv.2 ++ [10]))).flatten ++ tail))
    (ht : EndsOutput tail) (hv0 : v0 ≠ []) (hk0 : 32 ∉ k0) (hnk0 : 10 ∉ k0) (hnv0 : 10 ∉ v0)
    (hl0 : IsSpace (DecodeLastRuneInString v0).1 = false)
    (hkvs : ∀ kv ∈ kvs, PairLine kv.1 kv.2) :
    ∃ data, processCommand c (ascii "HEALTHCHECK") =
        .json ⟨some (ascii "OK"), ascii "success", none, some data⟩ ∧
      ∀ k, data.get k = lastValue ((k0, v0) :: kvs) k := by
  have hne : ¬ ascii "HEALTHCHECK" = ascii "RELOAD" := by decide
  have hin2 : c.input = ((ascii "OK" ++ 32 :: (k0 ++ 32 :: (v0 ++ [10]))) ::
      kvs.map (fun kv => kv.1 ++ 32 :: (kv.2 ++ [10]))).flatten ++ tail := by
    rw [hin]
    simp
  have hfirst : IsLine (ascii "OK" ++ 32 :: (k0 ++ 32 :: (v0 ++ [10]))) := by
    have hok : ascii "OK" = [79, 75] := by decide
    refine ⟨ascii "OK" ++ 32 :: (k0 ++ 32 :: v0), ?_, by simp, by rw [hok]; simp⟩
    simp only [List.mem_append, List.mem_cons, not_or]
    exact ⟨by decide, by decide, hnk0, by decide, hnv0⟩
  have hlines : ∀ l ∈ (ascii "OK" ++ 32 :: (k0 ++ 32 :: (v0 ++ [10]))) ::
      kvs.map (fun kv => kv.1 ++ 32 :: (kv.2 ++ [10])), IsLine l := by
    intro l hl
    rcases List.mem_cons.mp hl with rfl | hl
    · exact hfirst
    · obtain ⟨kv, hkv, rfl⟩ := List.mem_map.mp hl
      exact IsLine_pair kv.1 kv.2 (hkvs kv hkv)
  have htrim : TrimSpace (ascii "OK" ++ 32 :: (k0 ++ 32 :: (v0 ++ [10]))) =
      ascii "OK" ++ 32 :: (k0 ++ 32 :: v0) := by
    have e : ascii "OK" ++ 32 :: (k0 ++ 32 :: (v0 ++ [10])) =
        ascii "OK" ++ 32 :: ((k0 ++ 32 :: v0) ++ [10]) := by simp
    rw [e]
    apply TrimSpace_pair
    · decide
    · simp
    · decide
    · rw [DecodeLastRuneInString_append k0 v0 32 (by decide) hv0]
      exact hl0
  have hsplit : SplitN (ascii "OK" ++ 32 :: (k0 ++ 32 :: v0)) 32 3 = [ascii "OK", k0, v0] := by
    rw [SplitN_eq _ _ _ (by decide)]
    simp only [Nat.reduceSub]
    rw [genSplit_append 32 1 (ascii "OK") _ (by decide), genSplit_append 32 0 k0 v0 hk0]
    rfl
  have hbody0 : cmdBody (ascii "HEALTHCHECK") (ascii "OK" ++ 32 :: (k0 ++ 32 :: (v0 ++ [10]))) 0
      ⟨none, [], []⟩ = ⟨some (ascii "OK"), StrMap.set [] k0 v0, []⟩ := by
    simp only [cmdBody, if_neg hne, if_true, htrim, hsplit]
    simp
  rw [processCommand_lines c _ _ tail hd hdl hw hin2 hlines ht]
  simp only [cmdFold, hbody0]
  rw [cmdFold_pairs kvs _ _ hkvs]
  refine ⟨kvs.foldl (fun m kv => m.set kv.1 kv.2) (StrMap.set [] k0 v0), by simp [finish], ?_⟩
  intro k
  rw [foldl_set_get, StrMap.get_set]
  simp only [lastValue, List.reverse_cons, List.find?_append]
  cases hfind : List.find? (fun e => decide (e.1 = k)) kvs.reverse with
  | some e => simp [StrMap.get]
  | none =>
    by_cases hk : k0 = k
    · simp [hk, StrMap.get]
    · simp [hk, StrMap.get]

/-- C7, amended, on the session `OK syslogng_io_worker_latency_seconds 6.08e-05`,
`syslogng_mainloop_io_worker_roundtrip_latency_seconds 0.000114926`, `.`. -/
theorem C7_healthcheck_result_witness :
    ∃ data,
      processCommand ⟨none, none, none,
        ascii ("OK syslogng_io_worker_latency_seconds 6.08e-05\n" ++
          "syslogng_mainloop_io_worker_roundtrip_latency_seconds 0.000114926\n.\n"),
        ascii "EOF"⟩ (ascii "HEALTHCHECK") =
        .json ⟨some (ascii "OK"), ascii "success", none, some data⟩ ∧
      ∀ k, data.get k = lastValue
        [(ascii "syslogng_io_worker_latency_seconds", ascii "6.08e-05"),
          (ascii "syslogng_mainloop_io_worker_roundtrip_latency_seconds",
            ascii "0.000114926")] k :=
  C7_healthcheck_result
    ⟨none, none, none,
      ascii ("OK syslogng_io_worker_latency_seconds 6.08e-05\n" ++
        "syslogng_mainloop_io_worker_roundtrip_latency_seconds 0.000114926\n.\n"),
      ascii "EOF"⟩
    (ascii "syslogng_io_worker_latency_seconds") (ascii "6.08e-05")
    [(ascii "syslogng_mainloop_io_worker_roundtrip_latency_seconds", ascii "0.000114926")]
    (ascii ".\n") rfl rfl rfl (by decide) (Or.inr (by decide)) (by decide) (by decide)
    (by decide) (by decide) (by decide)
    (by
      intro kv hkv
      rw [List.mem_singleton] at hkv
      subst hkv
      decide)

end SyslogNg
